import Mathlib

/-!
Verification of the neuroai-transcribe transcript-assembly pipeline.

This file gives a shallow embedding, in Lean, of the pure logic of the
pipeline's core modules (`backend/core/stitch.py`, `backend/core/flag.py`,
`backend/core/pipeline.py`, `backend/core/split.py`,
`backend/core/overall_pipeline.py`, `backend/core/run_pipeline.py`,
`backend/core/file_manager.py`) and proves or refutes the specification's
claims about them.  External collaborators (the completion service, the
recognizer, the diarizer, pydub) are modelled as oracle parameters;
machine floats are modelled as exact rationals.
-/

set_option autoImplicit false

namespace NeuroAI

/-! ## Shared numeric utilities -/

/-- Banker's (half-to-even) rounding of a rational to the nearest integer.
Models CPython `round` applied to a value representable exactly. -/
def roundHalfEven (q : ℚ) : ℤ :=
  let n := ⌊q⌋
  let f := q - (n : ℚ)
  if f < 1/2 then n
  else if 1/2 < f then n + 1
  else if n % 2 = 0 then n else n + 1

/-- Models Python `round(q, 2)` (rounding to two decimal places). -/
def round2 (q : ℚ) : ℚ := (roundHalfEven (q * 100) : ℚ) / 100

/-- The explicit three-attempt retry loop shared by `process_batch_safe`
(stitch.py, lines 44-66) and `analyze_batch_safe` (flag.py, lines 70-92):
attempts are tried in order; the first successful response is returned;
after three failures the result is `none`.  An attempt returning `none`
models a raised `APITimeoutError` / other exception. -/
def retry3 {α : Type} (attempts : ℕ → Option α) : Option α :=
  match attempts 0 with
  | some r => some r
  | none =>
    match attempts 1 with
    | some r => some r
    | none => attempts 2

/-- Splitting a list into consecutive windows of size 5, mirroring
`for i in range(0, len(data), 5): batch = data[i : i + 5]` used both in
stitch.py (line 79) and flag.py (line 110). -/
def chunksOf5 {α : Type} : List α → List (List α)
  | [] => []
  | a :: b :: c :: d :: e :: rest => [a, b, c, d, e] :: chunksOf5 rest
  | l => [l]

/-! ## Model of `difflib.SequenceMatcher.ratio`

`check_hallucination` (stitch.py, lines 22-23) calls
`difflib.SequenceMatcher(None, a, b).ratio()`.  `difflib` is a Python
standard-library collaborator, modelled here by its documented contract
for sequences without junk (the `autojunk` heuristic only applies to
sequences of length ≥ 200, which the modelled witnesses stay below):
`ratio() = 2*M/T`, where `T` is the total length of the two sequences
and `M` is the total size of the matching blocks found by the recursive
Ratcliff–Obershelp procedure: find the longest matching block (ties
resolved toward the smallest start in `a`, then in `b`), then recurse on
the pieces to its left and to its right.  The ratio of two empty
sequences is 1. -/

/-- Length of the longest common prefix of two character lists. -/
def commonPrefixLen : List Char → List Char → ℕ
  | a :: as, b :: bs => if a = b then commonPrefixLen as bs + 1 else 0
  | _, _ => 0

/-- Size of the matching run of `a` and `b` starting at positions `i`, `j`. -/
def matchSizeAt (a b : List Char) (i j : ℕ) : ℕ :=
  commonPrefixLen (a.drop i) (b.drop j)

/-- The longest matching block `(i, j, k)` of two character lists, with
ties resolved toward the smallest `i` and then the smallest `j`
(the contract of `difflib`'s `find_longest_match` with no junk). -/
def bestMatch (a b : List Char) : ℕ × ℕ × ℕ :=
  (List.range (a.length + 1)).foldl (fun acc i =>
    (List.range (b.length + 1)).foldl (fun acc' j =>
      let k := matchSizeAt a b i j
      if acc'.2.2 < k then (i, j, k) else acc') acc) (0, 0, 0)

/-- The Ratcliff–Obershelp recursion of
`difflib.SequenceMatcher.get_matching_blocks`, with an explicit
recursion-depth bound `fuel` so that the definition is structural (the
fuel only has to dominate the recursion depth; every recursive call
strictly decreases `a.length + b.length`, so `a.length + b.length + 1`
is always enough). -/
def matchingTotalFuel : ℕ → List Char → List Char → ℕ
  | 0, _, _ => 0
  | fuel + 1, a, b =>
    let m := bestMatch a b
    if m.2.2 = 0 then 0
    else
      matchingTotalFuel fuel (a.take m.1) (b.take m.2.1) + m.2.2 +
        matchingTotalFuel fuel (a.drop (m.1 + m.2.2)) (b.drop (m.2.1 + m.2.2))

/-- Total size of the matching blocks of `difflib`'s
`SequenceMatcher.get_matching_blocks`. -/
def matchingTotal (a b : List Char) : ℕ :=
  matchingTotalFuel (a.length + b.length + 1) a b

/-- `difflib.SequenceMatcher(None, a, b).ratio()` for short sequences. -/
def seqRatio (a b : List Char) : ℚ :=
  if a.length + b.length = 0 then 1
  else (2 * (matchingTotal a b : ℚ)) / ((a.length : ℚ) + (b.length : ℚ))

/-- stitch.py, lines 22-23: the LCS-style similarity between the verbatim
source text and the rewritten text. -/
def check_hallucination (original_text rewritten_text : String) : ℚ :=
  seqRatio original_text.toList rewritten_text.toList

/-! ## Stitcher (backend/core/stitch.py) -/

/-- An aligned segment as consumed by `run_stitching_logic`: the fields
of the aligned-JSON records it reads (`id`, `start`, `end`, `speaker`,
`text`).  The Python key `end` is embedded as `stop` (`end` is a Lean
keyword). -/
structure Seg where
  id : String
  start : ℚ
  stop : ℚ
  speaker : String
  text : String
  deriving DecidableEq

/-- stitch.py lines 14-16: one merged sentence proposed by the
completion service. -/
structure VerifiedSentence where
  text : String
  source_ids : List String
  deriving DecidableEq

/-- stitch.py lines 18-19: the structured completion-service response. -/
structure DatasetEntry where
  sentences : List VerifiedSentence
  deriving DecidableEq

/-- The `status` values a stitched sentence can carry. -/
inductive StitchStatus where
  | verified
  | rejected_raw_kept
  | raw_fallback
  deriving DecidableEq

/-- One output record of `run_stitching_logic` (stitch.py lines
104-113 / 128-137). -/
structure StitchedItem where
  start : ℚ
  stop : ℚ
  speaker : String
  text : String
  source_ids : List String
  verification_score : ℚ
  status : StitchStatus
  sentence_id : ℕ
  deriving DecidableEq

/-- stitch.py line 81, `batch_map = {seg['id']: seg for seg in batch}`,
with Python dict semantics: a later duplicate id overwrites an earlier
one, hence the lookup finds the last matching segment. -/
def batchMapFind (batch : List Seg) (bid : String) : Option Seg :=
  batch.reverse.find? (fun s => s.id == bid)

/-- stitch.py line 91: keep only the returned ids present in the
current window. -/
def validIds (batch : List Seg) (sent : VerifiedSentence) : List String :=
  sent.source_ids.filter (fun bid => (batchMapFind batch bid).isSome)

/-- Text of the segment a (valid) id maps to. -/
def segTextOf (batch : List Seg) (bid : String) : String :=
  ((batchMapFind batch bid).map Seg.text).getD ""

/-- stitch.py line 94: `"".join(batch_map[bid]['text'] for bid in valid_ids)`. -/
def origTextOf (batch : List Seg) (vs : List String) : String :=
  String.join (vs.map (segTextOf batch))

/-- stitch.py lines 91-120: process one sentence proposed by the
completion service for the window `batch`; `n` is the current
`len(final_results)`.  Returns `none` when every returned id is foreign
to the window (the `continue` on line 92). -/
def stitchItem (batch : List Seg) (n : ℕ) (sent : VerifiedSentence) :
    Option StitchedItem :=
  match validIds batch sent with
  | [] => none
  | v0 :: rest =>
    let vs := v0 :: rest
    let orig := origTextOf batch vs
    let similarity := check_hallucination orig sent.text
    let lenRatio := (sent.text.length : ℚ) / ((orig.length : ℚ) + 1)
    let isRisky := similarity < 3/5 ∨ lenRatio > 3/2 ∨ lenRatio < 1/2
    some {
      start := ((batchMapFind batch v0).map Seg.start).getD 0
      stop := ((batchMapFind batch (vs.getLastD v0)).map Seg.stop).getD 0
      speaker := ((batchMapFind batch v0).map Seg.speaker).getD ""
      text := if isRisky then orig else sent.text
      source_ids := vs
      verification_score := round2 similarity
      status := if isRisky then .rejected_raw_kept else .verified
      sentence_id := n }

/-- stitch.py lines 90-120: the loop over `result.sentences` of a
successful window. -/
def processSentences (batch : List Seg) : List VerifiedSentence → ℕ → List StitchedItem
  | [], _ => []
  | s :: rest, n =>
    match stitchItem batch n s with
    | none => processSentences batch rest n
    | some it => it :: processSentences batch rest (n + 1)

/-- stitch.py lines 121-138: the per-segment raw fallback emitted when
a window's service call failed. -/
def fallbackList : List Seg → ℕ → List StitchedItem
  | [], _ => []
  | s :: rest, n =>
    { start := s.start, stop := s.stop, speaker := s.speaker, text := s.text,
      source_ids := [s.id], verification_score := 1,
      status := StitchStatus.raw_fallback, sentence_id := n } ::
      fallbackList rest (n + 1)

/-- One window of the stitching loop (stitch.py lines 86-138): a
successful service response is post-processed sentence by sentence, a
failed one falls back to one raw sentence per input segment. -/
def processWindow (svc : List Seg → Option DatasetEntry) (batch : List Seg) (n : ℕ) :
    List StitchedItem :=
  match svc batch with
  | some entry => processSentences batch entry.sentences n
  | none => fallbackList batch n

/-- The window loop of stitch.py line 79, threading
`len(final_results)` through as `n`. -/
def stitchGo (svc : List Seg → Option DatasetEntry) :
    List (List Seg) → ℕ → List StitchedItem
  | [], _ => []
  | b :: bs, n =>
    let items := processWindow svc b n
    items ++ stitchGo svc bs (n + items.length)

/-- stitch.py lines 69-141, `run_stitching_logic`, with the completion
service abstracted as `svc` (the observable behaviour of one
`process_batch_safe` call per window). -/
def run_stitching_logic (svc : List Seg → Option DatasetEntry)
    (raw_data : List Seg) : List StitchedItem :=
  stitchGo svc (chunksOf5 raw_data) 0

/-- stitch.py lines 34-66, `process_batch_safe`: up to three attempts,
first success wins, `None` after three failures. -/
def process_batch_safe (attempts : List Seg → ℕ → Option DatasetEntry)
    (batch : List Seg) : Option DatasetEntry :=
  retry3 (attempts batch)

/-- The multiset of source ids mentioned across an output. -/
def joinSourceIds (out : List StitchedItem) : List String :=
  (out.map StitchedItem.source_ids).flatten

/-! ## Anomaly Flagger (backend/core/flag.py) -/

/-- flag.py lines 13-16: the issue-category enum. -/
inductive IssueCategory where
  | likely_asr_error
  | context_mismatch
  | unintelligible
  deriving DecidableEq

/-- flag.py lines 20-30: one structured assessment returned by the
completion service. -/
structure SentenceHealth where
  sentence_id : ℤ
  is_suspicious : Bool
  issue_category : Option IssueCategory
  reason : Option String
  suggested_correction : Option String
  deriving DecidableEq

/-- flag.py lines 32-33: the structured response for one batch. -/
structure HealthReport where
  assessments : List SentenceHealth
  deriving DecidableEq

/-- A sentence dictionary as processed by `run_anomaly_detector`: the
stitched fields plus the review fields the detector initialises and
writes.  `sentence_id = none` models a dict without the
`'sentence_id'` key. -/
structure FlagRec where
  sentence_id : Option ℤ
  start : ℚ
  stop : ℚ
  speaker : String
  text : String
  source_ids : List String
  verification_score : ℚ
  status : StitchStatus
  needs_review : Bool
  review_reason : Option String
  suggested_correction : Option String
  deriving DecidableEq

/-- flag.py lines 99-104: initialise the review fields, assigning the
enumeration index as `sentence_id` when the key is absent. -/
def initFlag : List FlagRec → ℕ → List FlagRec
  | [], _ => []
  | r :: rest, idx =>
    { r with
      sentence_id := some (r.sentence_id.getD (idx : ℤ))
      needs_review := false
      review_reason := none
      suggested_correction := none } :: initFlag rest (idx + 1)

/-- Python `str()` of the optional enum inside the f-string of flag.py
line 131 (the exact rendering is irrelevant to the claims; only
non-nullness matters). -/
def issueCategoryStr : Option IssueCategory → String
  | none => "None"
  | some IssueCategory.likely_asr_error => "IssueCategory.LIKELY_ASR_ERROR"
  | some IssueCategory.context_mismatch => "IssueCategory.CONTEXT_MISMATCH"
  | some IssueCategory.unintelligible => "IssueCategory.UNINTELLIGIBLE"

/-- flag.py line 131: `f"[{assessment.issue_category}] {assessment.reason}"`. -/
def formatReason (a : SentenceHealth) : String :=
  "[" ++ issueCategoryStr a.issue_category ++ "] " ++ a.reason.getD "None"

/-- flag.py line 121: `{a.sentence_id: a for a in report.assessments}`,
with Python dict semantics: a later assessment for the same id wins. -/
def assessmentFor (rep : HealthReport) (sid : ℤ) : Option SentenceHealth :=
  rep.assessments.reverse.find? (fun a => a.sentence_id == sid)

/-- flag.py lines 123-133: apply a returned report to one sentence. -/
def applyReport (rep : HealthReport) (item : FlagRec) : FlagRec :=
  match assessmentFor rep (item.sentence_id.getD 0) with
  | none => item
  | some a =>
    if a.is_suspicious then
      { item with
        needs_review := true
        review_reason := some (formatReason a)
        suggested_correction := a.suggested_correction }
    else item

/-- flag.py lines 139-140: every sentence of a failed batch is marked
`Analysis_Failed` (and nothing else is changed). -/
def markFailed (item : FlagRec) : FlagRec :=
  { item with review_reason := some "Analysis_Failed" }

/-- One batch of the flagging loop (flag.py lines 116-140). -/
def processFlagBatch (svc : List FlagRec → Option HealthReport)
    (batch : List FlagRec) : List FlagRec :=
  match svc batch with
  | some rep => batch.map (applyReport rep)
  | none => batch.map markFailed

/-- flag.py lines 95-143, `run_anomaly_detector`, with the completion
service abstracted as `svc` (the observable behaviour of one
`analyze_batch_safe` call per batch of five). -/
def run_anomaly_detector (svc : List FlagRec → Option HealthReport)
    (data : List FlagRec) : List FlagRec :=
  ((chunksOf5 (initFlag data 0)).map (processFlagBatch svc)).flatten

/-- flag.py lines 43-92, `analyze_batch_safe`: three attempts, first
success wins, `None` after three failures. -/
def analyze_batch_safe (attempts : List FlagRec → ℕ → Option HealthReport)
    (batch : List FlagRec) : Option HealthReport :=
  retry3 (attempts batch)

/-! ## Aligner (backend/core/pipeline.py, `run_alignment`) -/

/-- One recognizer segment as read by `run_alignment` (chunk-relative
seconds; the optional word list is not consulted). -/
structure WSeg where
  start : ℚ
  stop : ℚ
  text : String
  deriving DecidableEq

/-- One diarization turn as read by `run_alignment`. -/
structure DSeg where
  start : ℚ
  stop : ℚ
  speaker : String
  deriving DecidableEq

/-- The `flag` values of an aligned record. -/
inductive AlignFlag where
  | auto
  | review_needed
  deriving DecidableEq

/-- One output record of `run_alignment` (pipeline.py lines 235-242). -/
structure AlignedSeg where
  id : String
  start : ℚ
  stop : ℚ
  speaker : String
  text : String
  flag : AlignFlag
  deriving DecidableEq

/-- pipeline.py line 228:
`speaker_scores[spk] = speaker_scores.get(spk, 0) + duration` on an
insertion-ordered dict, modelled as an association list: an existing
key is updated in place, a new key is appended. -/
def addScore (scores : List (String × ℚ)) (spk : String) (v : ℚ) :
    List (String × ℚ) :=
  if (scores.lookup spk).isSome then
    scores.map (fun p => if p.1 = spk then (p.1, p.2 + v) else p)
  else scores ++ [(spk, v)]

/-- pipeline.py lines 220-228: accumulate the strictly positive overlap
durations per speaker over all diarization turns. -/
def speakerScores (w : WSeg) (dsegs : List DSeg) : List (String × ℚ) :=
  dsegs.foldl (fun scores d =>
    let interStart := max w.start d.start
    let interEnd := min w.stop d.stop
    if interStart < interEnd then addScore scores d.speaker (interEnd - interStart)
    else scores) []

/-- pipeline.py lines 230-233: `max(speaker_scores, key=speaker_scores.get)`
keeps the first key attaining the maximum (iteration order = insertion
order); an empty dict yields `"Unknown"`. -/
def bestSpeaker : List (String × ℚ) → String
  | [] => "Unknown"
  | p :: rest => (rest.foldl (fun b q => if b.2 < q.2 then q else b) p).1

/-- Python `int()` truncation toward zero, for the id of line 236. -/
def truncInt (q : ℚ) : ℤ := if 0 ≤ q then ⌊q⌋ else ⌈q⌉

/-- pipeline.py lines 216-242: build one aligned record. -/
def alignOne (chunk_offset_sec : ℚ) (idx : ℕ) (w : WSeg) (dsegs : List DSeg) :
    AlignedSeg :=
  let best := bestSpeaker (speakerScores w dsegs)
  { id := "chunk_" ++ toString (truncInt chunk_offset_sec) ++ "_" ++ toString idx
    start := round2 (w.start + chunk_offset_sec)
    stop := round2 (w.stop + chunk_offset_sec)
    speaker := best
    text := w.text.trim
    flag := if best = "Unknown" then AlignFlag.review_needed else AlignFlag.auto }

/-- The enumeration loop of pipeline.py line 216. -/
def alignGo (chunk_offset_sec : ℚ) (dsegs : List DSeg) :
    List WSeg → ℕ → List AlignedSeg
  | [], _ => []
  | w :: rest, idx =>
    alignOne chunk_offset_sec idx w dsegs ::
      alignGo chunk_offset_sec dsegs rest (idx + 1)

/-- pipeline.py lines 203-247, `run_alignment`: the pure alignment
computation (the JSON file I/O around it is not modelled). -/
def run_alignment (wsegs : List WSeg) (dsegs : List DSeg)
    (chunk_offset_sec : ℚ) : List AlignedSeg :=
  alignGo chunk_offset_sec dsegs wsegs 0

/-! ## Segmenter (backend/core/split.py) -/

/-- Chunk metadata as produced by `split_audio` (split.py lines
113-119); the exported wav path is derived from these fields and not
modelled separately.  Times are in milliseconds; pydub positions may be
fractional after the midpoint division, hence `ℚ`. -/
structure ChunkMeta where
  chunk_id : ℕ
  start_time_ms : ℚ
  end_time_ms : ℚ
  duration_ms : ℚ
  deriving DecidableEq

/-- split.py lines 76-85: among candidate positions pick the one
closest to the target; strict improvement keeps the earliest (the loop
starts from `best_diff = inf`, so with a nonempty candidate list the
default `target` is always replaced by the first candidate). -/
def pickClosest (target : ℚ) (c : ℚ) (cs : List ℚ) : ℚ :=
  cs.foldl (fun best m => if |m - target| < |best - target| then m else best) c

/-- One cut point (split.py lines 60-94): a ±30000 ms search window
around the evenly spaced target; detected silence intervals
(window-relative, from `pydub.silence.detect_silence`) take priority
and the midpoint closest to the target wins; otherwise the adaptive
minimum-energy offset (window-relative, from
`_find_quietest_point_in_window`) is used. -/
def cutPoint (D : ℚ) (N : ℕ) (sil : ℕ → List (ℚ × ℚ)) (off : ℕ → ℚ)
    (i : ℕ) : ℚ :=
  let target := (i : ℚ) * D / (N : ℚ)
  let searchStart := max 0 (target - 30000)
  match sil i with
  | [] => searchStart + off i
  | p :: ps =>
    pickClosest target (searchStart + (p.1 + p.2) / 2)
      (ps.map (fun q => searchStart + (q.1 + q.2) / 2))

/-- split.py lines 56-96: `split_points = [0] + cuts + [total_duration]`. -/
def splitPoints (D : ℚ) (N : ℕ) (sil : ℕ → List (ℚ × ℚ)) (off : ℕ → ℚ) :
    List ℚ :=
  0 :: ((List.range (N - 1)).map (fun k => cutPoint D N sil off (k + 1)) ++ [D])

/-- split.py lines 100-119: consecutive split points become chunks. -/
def chunksFromPoints : ℕ → List ℚ → List ChunkMeta
  | _, [] => []
  | _, [_] => []
  | i, p :: q :: rest =>
    { chunk_id := i + 1, start_time_ms := p, end_time_ms := q,
      duration_ms := q - p } :: chunksFromPoints (i + 1) (q :: rest)

/-- split.py lines 39-122, `split_audio`, for a decodable audio of
total duration `D` ms split into `num_chunks` chunks; the pydub
silence/energy analysis over the audio content is abstracted by the
oracles `sil` and `off`. -/
def split_audio (D : ℚ) (num_chunks : ℕ) (sil : ℕ → List (ℚ × ℚ))
    (off : ℕ → ℚ) : List ChunkMeta :=
  chunksFromPoints 0 (splitPoints D num_chunks sil off)

/-! ## Orchestrator resume behaviour (backend/core/overall_pipeline.py) -/

/-- The artifacts of a case directory as consulted by
`OverallPipeline.run_complete_pipeline` (without `--force`): the chunk
wav files (step 1 skips splitting when any are present, lines 93-126)
and the per-chunk `*_whisper.json` / `*_diar.json` / `*_aligned.json`
artifacts, indexed by chunk position. -/
structure CaseStore where
  chunks : List ChunkMeta
  whisperJ : ℕ → Option (List WSeg)
  diarJ : ℕ → Option (List DSeg)
  alignedJ : ℕ → Option (List AlignedSeg)

/-- Counts of the external inference calls one run performs. -/
structure CallCounts where
  whisper : ℕ
  diar : ℕ
  completion : ℕ
  deriving DecidableEq

/-- overall_pipeline.py lines 166-241 (`step2_ai_processing`) for the
chunk at index `i`: an existing aligned artifact short-circuits the
whole phase (lines 180-184); otherwise whisper and diarization run only
when their artifacts are missing (lines 200-217) and alignment is
recomputed (line 223).  Returns the chunk's aligned segments and the
number of whisper / diarization invocations. -/
def step2Chunk (store : CaseStore) (wOracle : ℕ → List WSeg)
    (dOracle : ℕ → List DSeg) (i : ℕ) (offset : ℚ) :
    List AlignedSeg × ℕ × ℕ :=
  match store.alignedJ i with
  | some a => (a, 0, 0)
  | none =>
    let wres := match store.whisperJ i with
      | some w => (w, 0)
      | none => (wOracle i, 1)
    let dres := match store.diarJ i with
      | some d => (d, 0)
      | none => (dOracle i, 1)
    (run_alignment wres.1 dres.1 offset, wres.2, dres.2)

/-- The chunk loop of `step2_ai_processing`. -/
def step2Go (store : CaseStore) (wOracle : ℕ → List WSeg)
    (dOracle : ℕ → List DSeg) :
    List ChunkMeta → ℕ → List (List AlignedSeg) × ℕ × ℕ
  | [], _ => ([], 0, 0)
  | c :: rest, i =>
    let r := step2Chunk store wOracle dOracle i (c.start_time_ms / 1000)
    let rs := step2Go store wOracle dOracle rest (i + 1)
    (r.1 :: rs.1, r.2.1 + rs.2.1, r.2.2 + rs.2.2)

/-- overall_pipeline.py lines 245-286 (`step3_merge_chunks`): the merge
concatenates the aligned records; the default fields it adds
(`sentence_id`, `verification_score`, `status`, review fields) are keys
the stitcher never reads, so only the five fields below flow on. -/
def toStitchSeg (a : AlignedSeg) : Seg :=
  { id := a.id, start := a.start, stop := a.stop, speaker := a.speaker,
    text := a.text }

/-- View of a stitched sentence as the dict handed to
`run_anomaly_detector` (all keys present). -/
def toFlagRec (it : StitchedItem) : FlagRec :=
  { sentence_id := some (it.sentence_id : ℤ), start := it.start,
    stop := it.stop, speaker := it.speaker, text := it.text,
    source_ids := it.source_ids,
    verification_score := it.verification_score, status := it.status,
    needs_review := false, review_reason := none,
    suggested_correction := none }

/-- Number of completion-service requests one `retry3` loop issues:
always at least one, at most three (stitch.py lines 45-64, flag.py
lines 71-90). -/
def attemptsUsed {α : Type} (f : ℕ → Option α) : ℕ :=
  if (f 0).isSome then 1 else if (f 1).isSome then 2 else 3

/-- Completion-service requests issued by `run_stitching_logic`. -/
def stitchCallCount (attempts : List Seg → ℕ → Option DatasetEntry)
    (raw : List Seg) : ℕ :=
  ((chunksOf5 raw).map (fun b => attemptsUsed (attempts b))).sum

/-- Completion-service requests issued by `run_anomaly_detector`. -/
def flagCallCount (attempts : List FlagRec → ℕ → Option HealthReport)
    (data : List FlagRec) : ℕ :=
  ((chunksOf5 (initFlag data 0)).map (fun b => attemptsUsed (attempts b))).sum

/-- The final transcript record written by `save_results`
(overall_pipeline.py lines 314-353); `processed_at` is the wall-clock
timestamp `datetime.now().isoformat()`, modelled as a number. -/
structure FinalTranscript where
  case_name : String
  video_file : String
  processed_at : ℕ
  total_segments : ℕ
  flagged_segments : ℕ
  segments : List FlagRec
  deriving DecidableEq

/-- overall_pipeline.py lines 355-397, `run_complete_pipeline` (without
`--force`), over the case directory `store`, run at wall-clock time
`now`: step 1 reuses existing chunk files or splits anew (`splitResult`
stands for the splitter's output on the source video); steps 2-4 skip
per-chunk work whose artifacts exist; step 5 merges; step 6 re-runs
stitching and flagging unconditionally (there is no checkpoint for
them); `save_results` stamps `processed_at = now`.  Returns the final
transcript and the external call counts. -/
def run_complete_pipeline (store : CaseStore) (splitResult : List ChunkMeta)
    (wOracle : ℕ → List WSeg) (dOracle : ℕ → List DSeg)
    (sAtt : List Seg → ℕ → Option DatasetEntry)
    (fAtt : List FlagRec → ℕ → Option HealthReport)
    (caseName videoFile : String) (now : ℕ) : FinalTranscript × CallCounts :=
  let metadata := if store.chunks = [] then splitResult else store.chunks
  let s2 := step2Go store wOracle dOracle metadata 0
  let merged := (s2.1.flatten).map toStitchSeg
  let stitched := run_stitching_logic (process_batch_safe sAtt) merged
  let flagData := stitched.map toFlagRec
  let flagged := run_anomaly_detector (analyze_batch_safe fAtt) flagData
  ({ case_name := caseName, video_file := videoFile, processed_at := now,
     total_segments := flagged.length,
     flagged_segments := (flagged.filter (fun s => s.needs_review)).length,
     segments := flagged },
   { whisper := s2.2.1, diar := s2.2.2,
     completion := stitchCallCount sAtt merged + flagCallCount fAtt flagData })

/-! ## Status persistence (backend/core/file_manager.py and
backend/core/run_pipeline.py) -/

/-- file_manager.py lines 252-266: the record `save_status` writes to
`status.json`. -/
structure StatusRec where
  case_name : String
  step : String
  progress : ℤ
  message : String
  timestamp : ℕ
  deriving DecidableEq

/-- What a polling client reads back (file_manager.py lines 268-277);
the default has no `case_name`/`timestamp` keys, so only the shared
fields are viewed. -/
structure StatusView where
  step : String
  progress : ℤ
  message : String
  deriving DecidableEq

/-- file_manager.py `save_status`: overwrite the persisted status. -/
def save_status (_current : Option StatusRec) (case_name step : String)
    (progress : ℤ) (message : String) (timestamp : ℕ) : Option StatusRec :=
  some { case_name := case_name, step := step, progress := progress,
         message := message, timestamp := timestamp }

/-- file_manager.py `get_status`: a missing `status.json` yields the
default `Init` view. -/
def get_status (st : Option StatusRec) : StatusView :=
  match st with
  | none => { step := "Init", progress := 0, message := "Waiting..." }
  | some r => { step := r.step, progress := r.progress, message := r.message }

/-- run_pipeline.py lines 28-63, `NeuroAIPipeline.run`, threading the
persisted status store through.  The phases run in order inside the
`try`; an empty chunk list raises `ValueError` (line 39); any raised
exception is caught by the blanket `except` (lines 57-61), which prints
a traceback and returns `None`.  No branch of `run` or of its phase
helpers ever calls `FileManager.save_status`, so the status store is
returned unchanged on every path. -/
def pipelineRun (split : Except String (List ChunkMeta))
    (process : Except String Unit)
    (stitchFlag : Except String (List FlagRec))
    (st : Option StatusRec) : Option String × Option StatusRec :=
  match split with
  | Except.error _ => (none, st)
  | Except.ok chunks =>
    if chunks = [] then (none, st)
    else
      match process with
      | Except.error _ => (none, st)
      | Except.ok _ =>
        match stitchFlag with
        | Except.error _ => (none, st)
        | Except.ok _ => (some "transcript.json", st)

/-! ## Supplementary definitions used in the claim statements -/

/-- Accumulated overlap of a speaker in the sense of the specification:
the sum of `max 0 (min end_w end_d - max start_w start_d)` over the
speaker's diarization turns. -/
def sumMax0 (w : WSeg) (dsegs : List DSeg) (s : String) : ℚ :=
  ((dsegs.filter (fun d => d.speaker == s)).map
    (fun d => max 0 (min w.stop d.stop - max w.start d.start))).sum

/-- Length of a cut-point search window: `[max 0 (t-30s), min D (t+30s)]`
around the target `t = i*D/N` (split.py lines 64-66). -/
def winLen (D : ℚ) (N : ℕ) (i : ℕ) : ℚ :=
  min D ((i : ℚ) * D / (N : ℚ) + 30000) - max 0 ((i : ℚ) * D / (N : ℚ) - 30000)

/-! ## Concrete instances used by the claim theorems -/

def rawC1 : List Seg := [{ id := "a", start := 0, stop := 1, speaker := "S", text := "hi" }]

/-- A service response that addresses none of the window's ids. -/
def svcC1 : List Seg → Option DatasetEntry := fun _ => some { sentences := [] }

def rawC1w : List Seg :=
  [{ id := "u", start := 0, stop := 1, speaker := "S", text := "t1" },
   { id := "v", start := 1, stop := 2, speaker := "S", text := "t2" }]

def rawC2 : List Seg := [{ id := "a", start := 0, stop := 1, speaker := "S", text := "abc" }]

def svcC2 : List Seg → Option DatasetEntry :=
  fun _ => some { sentences := [{ text := "abx", source_ids := ["a"] }] }

def rawC2w : List Seg :=
  [{ id := "a", start := 0, stop := 1, speaker := "S", text := "ABCDEFGHIJ" }]

def sentC2w : VerifiedSentence := { text := "ABCDEFWXYZ", source_ids := ["a"] }

def sentC2r : VerifiedSentence := { text := "zzzzzzzzzz", source_ids := ["a"] }

def rawC3 : List Seg :=
  [{ id := "a", start := 0, stop := 1, speaker := "S1", text := "x" },
   { id := "b", start := 1, stop := 2, speaker := "S2", text := "y" }]

def sentC3 : VerifiedSentence := { text := "xy", source_ids := ["a", "b"] }

def svcC3 : List Seg → Option DatasetEntry := fun _ => some { sentences := [sentC3] }

def rawC5 : List Seg :=
  [{ id := "p", start := 0, stop := 1, speaker := "S", text := "hello" },
   { id := "q", start := 1, stop := 2, speaker := "T", text := "world" }]

def dataC6 : List FlagRec :=
  [{ sentence_id := none, start := 0, stop := 1, speaker := "S", text := "t0",
     source_ids := ["x"], verification_score := 1, status := StitchStatus.verified,
     needs_review := true, review_reason := some "junk",
     suggested_correction := some "junk" },
   { sentence_id := none, start := 1, stop := 2, speaker := "S", text := "t1",
     source_ids := ["y"], verification_score := 1, status := StitchStatus.verified,
     needs_review := false, review_reason := none, suggested_correction := none }]

def assessC6 : SentenceHealth :=
  { sentence_id := 0, is_suspicious := true,
    issue_category := some IssueCategory.likely_asr_error,
    reason := some "sounds wrong", suggested_correction := some "fixed text" }

def attemptsC6 : List FlagRec → ℕ → Option HealthReport :=
  fun _ _ => some { assessments := [assessC6] }

def attemptsC6fail : List FlagRec → ℕ → Option HealthReport := fun _ _ => none

def dataC10 : List FlagRec :=
  [{ sentence_id := some 7, start := 0, stop := 1, speaker := "S", text := "u0",
     source_ids := ["x"], verification_score := 9/10, status := StitchStatus.verified,
     needs_review := false, review_reason := none, suggested_correction := none }]

def svcC10 : List FlagRec → Option HealthReport :=
  fun _ => some { assessments :=
    [{ sentence_id := 7, is_suspicious := true,
       issue_category := some IssueCategory.context_mismatch,
       reason := some "odd", suggested_correction := some "better" }] }

def wC4 : WSeg := { start := 2, stop := 4, text := "t" }

def dC4 : List DSeg :=
  [{ start := 0, stop := 3, speaker := "A" }, { start := 3, stop := 5, speaker := "B" }]

def alSegC7 : AlignedSeg :=
  { id := "chunk_0_0", start := 0, stop := 1, speaker := "S", text := "hello",
    flag := AlignFlag.auto }

def csC7 : CaseStore :=
  { chunks := [{ chunk_id := 1, start_time_ms := 0, end_time_ms := 1000,
                 duration_ms := 1000 }],
    whisperJ := fun _ => none, diarJ := fun _ => none,
    alignedJ := fun _ => some [alSegC7] }

def silC8 : ℕ → List (ℚ × ℚ) := fun _ => []

def offC8 : ℕ → ℚ := fun _ => 5000

/-! ## General lemmas -/

theorem chunksOf5_flatten {α : Type} (l : List α) : (chunksOf5 l).flatten = l := by
  induction l using chunksOf5.induct with
  | case1 => rfl
  | case2 a b c d e rest ih => simp [chunksOf5, ih]
  | case3 l h1 h2 => simp [chunksOf5, h1, h2]

theorem mem_of_mem_chunksOf5 {α : Type} {l b : List α} (hb : b ∈ chunksOf5 l)
    {x : α} (hx : x ∈ b) : x ∈ l := by
  have h := chunksOf5_flatten l
  rw [← h]
  exact List.mem_flatten.mpr ⟨b, hb, hx⟩

theorem retry3_eq_none {α : Type} (f : ℕ → Option α)
    (h : ∀ k, k < 3 → f k = none) : retry3 f = none := by
  unfold retry3
  rw [h 0 (by omega), h 1 (by omega), h 2 (by omega)]

theorem stitchGo_append (svc : List Seg → Option DatasetEntry)
    (bs1 bs2 : List (List Seg)) (n : ℕ) :
    stitchGo svc (bs1 ++ bs2) n =
      stitchGo svc bs1 n ++ stitchGo svc bs2 (n + (stitchGo svc bs1 n).length) := by
  induction bs1 generalizing n with
  | nil => simp [stitchGo]
  | cons b bs ih =>
    simp only [List.cons_append, stitchGo, List.append_eq]
    rw [ih]
    simp [List.append_assoc, List.length_append, Nat.add_assoc]

theorem mem_stitchGo {svc : List Seg → Option DatasetEntry}
    {bs : List (List Seg)} {n : ℕ} {it : StitchedItem}
    (h : it ∈ stitchGo svc bs n) : ∃ b ∈ bs, ∃ m, it ∈ processWindow svc b m := by
  induction bs generalizing n with
  | nil => simp [stitchGo] at h
  | cons b rest ih =>
    simp only [stitchGo, List.mem_append] at h
    rcases h with h | h
    · exact ⟨b, List.mem_cons_self b rest, n, h⟩
    · obtain ⟨b', hb', m, hm⟩ := ih h
      exact ⟨b', List.mem_cons_of_mem _ hb', m, hm⟩

theorem stitchItem_eq (batch : List Seg) (n : ℕ) (sent : VerifiedSentence)
    (it : StitchedItem) (h : stitchItem batch n sent = some it) :
    ∃ v0 rest, validIds batch sent = v0 :: rest ∧
      it = { start := ((batchMapFind batch v0).map Seg.start).getD 0
             stop := ((batchMapFind batch ((v0 :: rest).getLastD v0)).map Seg.stop).getD 0
             speaker := ((batchMapFind batch v0).map Seg.speaker).getD ""
             text := if check_hallucination (origTextOf batch (v0 :: rest)) sent.text < 3/5 ∨
                 (sent.text.length : ℚ) / (((origTextOf batch (v0 :: rest)).length : ℚ) + 1) > 3/2 ∨
                 (sent.text.length : ℚ) / (((origTextOf batch (v0 :: rest)).length : ℚ) + 1) < 1/2 then
                 origTextOf batch (v0 :: rest) else sent.text
             source_ids := v0 :: rest
             verification_score :=
               round2 (check_hallucination (origTextOf batch (v0 :: rest)) sent.text)
             status := if check_hallucination (origTextOf batch (v0 :: rest)) sent.text < 3/5 ∨
                 (sent.text.length : ℚ) / (((origTextOf batch (v0 :: rest)).length : ℚ) + 1) > 3/2 ∨
                 (sent.text.length : ℚ) / (((origTextOf batch (v0 :: rest)).length : ℚ) + 1) < 1/2 then
                 StitchStatus.rejected_raw_kept else StitchStatus.verified
             sentence_id := n } := by
  unfold stitchItem at h
  cases hvs : validIds batch sent with
  | nil => rw [hvs] at h; exact absurd h (by simp)
  | cons v0 rest =>
    rw [hvs] at h
    simp only [Option.some_inj] at h
    exact ⟨v0, rest, rfl, h.symm⟩

theorem validIds_mem (batch : List Seg) (sent : VerifiedSentence) (bid : String)
    (h : bid ∈ validIds batch sent) : ∃ s ∈ batch, s.id = bid := by
  unfold validIds at h
  have h2 := List.of_mem_filter h
  rw [Option.isSome_iff_exists] at h2
  obtain ⟨s, hs⟩ := h2
  unfold batchMapFind at hs
  refine ⟨s, ?_, ?_⟩
  · exact (List.mem_reverse).mp (List.mem_of_find?_eq_some hs)
  · have := List.find?_some hs
    exact eq_of_beq this

theorem batchMapFind_isSome_of_mem_validIds (batch : List Seg)
    (sent : VerifiedSentence) (bid : String) (h : bid ∈ validIds batch sent) :
    ∃ s, batchMapFind batch bid = some s ∧ s.speaker = (((batchMapFind batch bid).map Seg.speaker).getD "") := by
  unfold validIds at h
  have h2 := List.of_mem_filter h
  rw [Option.isSome_iff_exists] at h2
  obtain ⟨s, hs⟩ := h2
  exact ⟨s, hs, by rw [hs]; rfl⟩

theorem mem_processSentences {batch : List Seg} {ss : List VerifiedSentence}
    {n : ℕ} {it : StitchedItem} (h : it ∈ processSentences batch ss n) :
    ∃ s ∈ ss, ∃ m, stitchItem batch m s = some it := by
  induction ss generalizing n with
  | nil => simp [processSentences] at h
  | cons s rest ih =>
    unfold processSentences at h
    cases hsi : stitchItem batch n s with
    | none =>
      rw [hsi] at h
      obtain ⟨s', hs', m, hm⟩ := ih h
      exact ⟨s', List.mem_cons_of_mem _ hs', m, hm⟩
    | some it' =>
      rw [hsi] at h
      rcases List.mem_cons.mp h with h | h
      · exact ⟨s, List.mem_cons_self s rest, n, h ▸ hsi⟩
      · obtain ⟨s', hs', m, hm⟩ := ih h
        exact ⟨s', List.mem_cons_of_mem _ hs', m, hm⟩

theorem mem_fallbackList {b : List Seg} {n : ℕ} {it : StitchedItem}
    (h : it ∈ fallbackList b n) : ∃ s ∈ b, it.source_ids = [s.id] := by
  induction b generalizing n with
  | nil => simp [fallbackList] at h
  | cons s rest ih =>
    unfold fallbackList at h
    rcases List.mem_cons.mp h with h | h
    · exact ⟨s, List.mem_cons_self s rest, by rw [h]⟩
    · obtain ⟨s', hs', hm⟩ := ih h
      exact ⟨s', List.mem_cons_of_mem _ hs', hm⟩

theorem fallbackList_length (b : List Seg) (n : ℕ) :
    (fallbackList b n).length = b.length := by
  induction b generalizing n with
  | nil => rfl
  | cons s rest ih => simp [fallbackList, ih]

theorem fallbackList_sourceIds (b : List Seg) (n : ℕ) :
    joinSourceIds (fallbackList b n) = b.map Seg.id := by
  induction b generalizing n with
  | nil => rfl
  | cons s rest ih => simp [fallbackList, joinSourceIds, List.map_cons] at ih ⊢; exact ih _

theorem fallbackList_get (b : List Seg) (n j : ℕ) (hj : j < b.length)
    (hj' : j < (fallbackList b n).length) :
    (fallbackList b n).get ⟨j, hj'⟩ =
      { start := (b.get ⟨j, hj⟩).start, stop := (b.get ⟨j, hj⟩).stop,
        speaker := (b.get ⟨j, hj⟩).speaker, text := (b.get ⟨j, hj⟩).text,
        source_ids := [(b.get ⟨j, hj⟩).id], verification_score := 1,
        status := StitchStatus.raw_fallback, sentence_id := n + j } := by
  induction b generalizing n j with
  | nil => simp at hj
  | cons s rest ih =>
    cases j with
    | zero => rfl
    | succ j' =>
      have hj2 : j' < rest.length := by simpa using hj
      have hj2' : j' < (fallbackList rest (n + 1)).length := by
        rw [fallbackList_length]; exact hj2
      have hrec := ih (n + 1) j' hj2 hj2'
      have h1 : (fallbackList (s :: rest) n).get ⟨j' + 1, hj'⟩ =
          (fallbackList rest (n + 1)).get ⟨j', hj2'⟩ := rfl
      rw [h1, hrec]
      have h2 : ((s :: rest).get ⟨j' + 1, hj⟩) = rest.get ⟨j', hj2⟩ := rfl
      rw [h2]
      congr 1
      omega

theorem joinSourceIds_append (o1 o2 : List StitchedItem) :
    joinSourceIds (o1 ++ o2) = joinSourceIds o1 ++ joinSourceIds o2 := by
  simp [joinSourceIds]

theorem stitchGo_allFail (svc : List Seg → Option DatasetEntry)
    (hsvc : ∀ b, svc b = none) (bs : List (List Seg)) (n : ℕ) :
    joinSourceIds (stitchGo svc bs n) =
      (bs.map (fun b => b.map Seg.id)).flatten := by
  induction bs generalizing n with
  | nil => rfl
  | cons b rest ih =>
    simp only [stitchGo, List.map_cons, List.flatten_cons]
    rw [joinSourceIds_append]
    unfold processWindow
    rw [hsvc b]
    rw [fallbackList_sourceIds, ih]

/-! ## Claim C1 -/

/-- Claim C1 counterexample: on the one-segment input `rawC1`, a
service response that addresses none of the window's ids (`svcC1`)
produces an empty output, so the union of the output `source_ids` is
empty while the input id set is `{"a"}` — the id is silently lost, the
completeness invariant fails. -/
theorem stitcher_completeness_cex :
    run_stitching_logic svcC1 rawC1 = [] ∧
      joinSourceIds (run_stitching_logic svcC1 rawC1) = [] ∧
      rawC1.map Seg.id = ["a"] :=
  ⟨rfl, rfl, rfl⟩

/-- Claim C1 (amended): every source id in the output of
`run_stitching_logic` is an id of the input, and when the completion
service fails on every attempt for every window, the concatenation of
the output `source_ids` equals the input id list exactly (one
single-segment fallback sentence per input).  When the service responds,
however, ids omitted from its accepted groups are silently dropped
(see the counterexample), so the unconditional exactly-once invariant
does not hold. -/
theorem stitcher_completeness_amended
    (attempts : List Seg → ℕ → Option DatasetEntry) (raw : List Seg) :
    (∀ it ∈ run_stitching_logic (process_batch_safe attempts) raw,
        ∀ bid ∈ it.source_ids, bid ∈ raw.map Seg.id) ∧
      ((∀ b k, k < 3 → attempts b k = none) →
        joinSourceIds (run_stitching_logic (process_batch_safe attempts) raw) =
          raw.map Seg.id) := by
  constructor
  · intro it hit bid hbid
    obtain ⟨b, hb, m, hm⟩ := mem_stitchGo hit
    unfold processWindow at hm
    cases hsvc : process_batch_safe attempts b with
    | some entry =>
      rw [hsvc] at hm
      obtain ⟨s, _, m', hm'⟩ := mem_processSentences hm
      have hids := stitchItem_eq b m' s it hm'
      obtain ⟨v0, rest, hvs, hit_eq⟩ := hids
      have hsrc : it.source_ids = validIds b s := by rw [hit_eq, hvs]
      rw [hsrc] at hbid
      obtain ⟨sg, hsg, hsgid⟩ := validIds_mem b s bid hbid
      exact List.mem_map.mpr ⟨sg, mem_of_mem_chunksOf5 hb hsg, hsgid⟩
    | none =>
      rw [hsvc] at hm
      obtain ⟨sg, hsg, hids⟩ := mem_fallbackList hm
      rw [hids] at hbid
      rcases List.mem_singleton.mp hbid with h
      exact List.mem_map.mpr ⟨sg, mem_of_mem_chunksOf5 hb hsg, h.symm⟩
  · intro hfail
    have hsvc : ∀ b, process_batch_safe attempts b = none := by
      intro b
      exact retry3_eq_none (attempts b) (fun k hk => hfail b k hk)
    unfold run_stitching_logic
    rw [stitchGo_allFail _ hsvc]
    rw [show ((chunksOf5 raw).map (fun b => b.map Seg.id)).flatten =
        ((chunksOf5 raw).map (List.map Seg.id)).flatten from rfl]
    rw [← List.map_flatten, chunksOf5_flatten]

/-- Claim C1 witness: the amended theorem applied to a total service
failure on the two-segment input `rawC1w` — the output covers exactly
the ids `["u", "v"]`, once each. -/
theorem stitcher_completeness_amended_witness :
    joinSourceIds (run_stitching_logic (process_batch_safe (fun _ _ => none)) rawC1w) =
        rawC1w.map Seg.id ∧
      rawC1w.map Seg.id = ["u", "v"] :=
  ⟨(stitcher_completeness_amended (fun _ _ => none) rawC1w).2 (fun _ _ _ => rfl), rfl⟩

/-! ## Claim C2 -/

theorem sim_abc_abx : check_hallucination "abc" "abx" = 2/3 := by
  have h2 : matchingTotal "abc".toList "abx".toList = 2 := by decide
  have h3 : "abc".toList.length = 3 := by decide
  have h4 : "abx".toList.length = 3 := by decide
  unfold check_hallucination seqRatio
  rw [h2, h3, h4]
  norm_num

theorem round2_two_thirds : round2 (2/3 : ℚ) = 67/100 := by
  unfold round2 roundHalfEven
  norm_num

set_option maxRecDepth 4000 in
theorem sim_boundary : check_hallucination "ABCDEFGHIJ" "ABCDEFWXYZ" = 3/5 := by
  have h2 : matchingTotal "ABCDEFGHIJ".toList "ABCDEFWXYZ".toList = 6 := by decide
  have h3 : "ABCDEFGHIJ".toList.length = 10 := by decide
  have h4 : "ABCDEFWXYZ".toList.length = 10 := by decide
  unfold check_hallucination seqRatio
  rw [h2, h3, h4]
  norm_num

set_option maxRecDepth 4000 in
theorem sim_zzz : check_hallucination "ABCDEFGHIJ" "zzzzzzzzzz" = 0 := by
  have h2 : matchingTotal "ABCDEFGHIJ".toList "zzzzzzzzzz".toList = 0 := by decide
  have h3 : "ABCDEFGHIJ".toList.length = 10 := by decide
  have h4 : "zzzzzzzzzz".toList.length = 10 := by decide
  unfold check_hallucination seqRatio
  rw [h2, h3, h4]
  norm_num

theorem round2_three_fifths : round2 (3/5 : ℚ) = 3/5 := by
  unfold round2 roundHalfEven
  norm_num

/-- Claim C2 counterexample: with source text `"abc"` and accepted
proposal `"abx"`, the similarity is `2/3`, the guard accepts, but the
stored `verification_score` is `round(2/3, 2) = 0.67 ≠ 2/3`, so
"verification_score equals the similarity" fails as stated. -/
theorem hallucination_guard_cex :
    (run_stitching_logic svcC2 rawC2).map StitchedItem.status = [StitchStatus.verified] ∧
      (run_stitching_logic svcC2 rawC2).map StitchedItem.verification_score = [(67 : ℚ)/100] ∧
      check_hallucination "abc" "abx" = 2/3 ∧ ((67 : ℚ)/100) ≠ 2/3 := by
  have hv : validIds rawC2 { text := "abx", source_ids := ["a"] } = ["a"] := by decide
  have horig : origTextOf rawC2 ["a"] = "abc" := by decide
  have hlen : ("abx" : String).length = 3 := by decide
  have hlen2 : ("abc" : String).length = 3 := by decide
  simp only [rawC2] at hv horig
  refine ⟨?_, ?_, sim_abc_abx, by norm_num⟩ <;>
    · simp only [run_stitching_logic, rawC2, chunksOf5, stitchGo, processWindow, svcC2,
        processSentences, stitchItem, hv, horig, sim_abc_abx, round2_two_thirds,
        hlen, hlen2, List.getLastD]
      norm_num

/-- Claim C2 (amended): for every sentence accepted into the output
(`stitchItem` returns `some`), with `similarity` the
`SequenceMatcher`-ratio between the verbatim concatenation of the valid
sources' texts and the proposed text, and with
`length ratio = len(proposed)/(len(original)+1)`, the sentence is
rejected (`status = Rejected_Raw_Kept`, text replaced by the verbatim
concatenation) iff `similarity < 0.6` OR `length ratio > 1.5` OR
`length ratio < 0.5`, with strict inequalities (similarity exactly 0.6
is accepted as `Verified`); otherwise `status = Verified` with the
proposed text; and `verification_score` equals the similarity rounded
to two decimal places (`round(similarity, 2)`), not the similarity
itself. -/
theorem hallucination_guard_amended (batch : List Seg) (n : ℕ)
    (sent : VerifiedSentence) (it : StitchedItem)
    (h : stitchItem batch n sent = some it) :
    (it.status = StitchStatus.rejected_raw_kept ↔
        (check_hallucination (origTextOf batch (validIds batch sent)) sent.text < 3/5 ∨
          (sent.text.length : ℚ) / (((origTextOf batch (validIds batch sent)).length : ℚ) + 1) > 3/2 ∨
          (sent.text.length : ℚ) / (((origTextOf batch (validIds batch sent)).length : ℚ) + 1) < 1/2)) ∧
      (it.status = StitchStatus.rejected_raw_kept →
        it.text = origTextOf batch (validIds batch sent)) ∧
      (it.status = StitchStatus.verified ↔
        ¬(check_hallucination (origTextOf batch (validIds batch sent)) sent.text < 3/5 ∨
          (sent.text.length : ℚ) / (((origTextOf batch (validIds batch sent)).length : ℚ) + 1) > 3/2 ∨
          (sent.text.length : ℚ) / (((origTextOf batch (validIds batch sent)).length : ℚ) + 1) < 1/2)) ∧
      (it.status = StitchStatus.verified → it.text = sent.text) ∧
      it.verification_score =
        round2 (check_hallucination (origTextOf batch (validIds batch sent)) sent.text) := by
  obtain ⟨v0, rest, hvs, hit⟩ := stitchItem_eq batch n sent it h
  rw [hvs]
  subst hit
  by_cases hr : (check_hallucination (origTextOf batch (v0 :: rest)) sent.text < 3/5 ∨
      (sent.text.length : ℚ) / (((origTextOf batch (v0 :: rest)).length : ℚ) + 1) > 3/2 ∨
      (sent.text.length : ℚ) / (((origTextOf batch (v0 :: rest)).length : ℚ) + 1) < 1/2)
  · have hst : (if check_hallucination (origTextOf batch (v0 :: rest)) sent.text < 3/5 ∨
        (sent.text.length : ℚ) / (((origTextOf batch (v0 :: rest)).length : ℚ) + 1) > 3/2 ∨
        (sent.text.length : ℚ) / (((origTextOf batch (v0 :: rest)).length : ℚ) + 1) < 1/2 then
          StitchStatus.rejected_raw_kept else StitchStatus.verified) =
        StitchStatus.rejected_raw_kept := if_pos hr
    refine ⟨⟨fun _ => hr, fun _ => hst⟩, fun _ => if_pos hr,
      ⟨fun hv => absurd (hst.symm.trans hv) (by decide), fun hnc => absurd hr hnc⟩,
      fun hv => absurd (hst.symm.trans hv) (by decide), rfl⟩
  · have hst : (if check_hallucination (origTextOf batch (v0 :: rest)) sent.text < 3/5 ∨
        (sent.text.length : ℚ) / (((origTextOf batch (v0 :: rest)).length : ℚ) + 1) > 3/2 ∨
        (sent.text.length : ℚ) / (((origTextOf batch (v0 :: rest)).length : ℚ) + 1) < 1/2 then
          StitchStatus.rejected_raw_kept else StitchStatus.verified) =
        StitchStatus.verified := if_neg hr
    refine ⟨⟨fun h1 => absurd (hst.symm.trans h1) (by decide), fun hc => absurd hc hr⟩,
      fun h2 => absurd (hst.symm.trans h2) (by decide),
      ⟨fun _ => hr, fun _ => hst⟩, fun _ => if_neg hr, rfl⟩

/-- Claim C2 witness: the amended theorem at concrete inputs — with
original `"ABCDEFGHIJ"` (10 chars) and proposal `"ABCDEFWXYZ"` the
similarity is exactly `0.6` and the guard accepts (`Verified`, score
`0.6`); with proposal `"zzzzzzzzzz"` the similarity is `0` and the
guard rejects, keeping the verbatim source text. -/
theorem hallucination_guard_amended_witness :
    (∃ it, stitchItem rawC2w 0 sentC2w = some it ∧
        it.status = StitchStatus.verified ∧ it.verification_score = 3/5 ∧
        check_hallucination "ABCDEFGHIJ" "ABCDEFWXYZ" = 3/5) ∧
      (∃ it, stitchItem rawC2w 1 sentC2r = some it ∧
        it.status = StitchStatus.rejected_raw_kept ∧ it.text = "ABCDEFGHIJ") := by
  have hvw : validIds rawC2w sentC2w = ["a"] := by decide
  have hvr : validIds rawC2w sentC2r = ["a"] := by decide
  have horig : origTextOf rawC2w ["a"] = "ABCDEFGHIJ" := by decide
  have hl1 : ("ABCDEFWXYZ" : String).length = 10 := by decide
  have hl2 : ("ABCDEFGHIJ" : String).length = 10 := by decide
  constructor
  · cases hsi : stitchItem rawC2w 0 sentC2w with
    | none =>
      exfalso
      unfold stitchItem at hsi
      rw [hvw] at hsi
      simp at hsi
    | some it =>
      have H := hallucination_guard_amended rawC2w 0 sentC2w it hsi
      rw [hvw, horig] at H
      have hsw : sentC2w.text = "ABCDEFWXYZ" := rfl
      rw [hsw] at H
      refine ⟨it, rfl, ?_, ?_, sim_boundary⟩
      · refine H.2.2.1.mpr ?_
        rw [sim_boundary, hl1, hl2]
        norm_num
      · rw [H.2.2.2.2, sim_boundary, round2_three_fifths]
  · cases hsi : stitchItem rawC2w 1 sentC2r with
    | none =>
      exfalso
      unfold stitchItem at hsi
      rw [hvr] at hsi
      simp at hsi
    | some it =>
      have H := hallucination_guard_amended rawC2w 1 sentC2r it hsi
      rw [hvr, horig] at H
      have hsr : sentC2r.text = "zzzzzzzzzz" := rfl
      rw [hsr] at H
      have hstat : it.status = StitchStatus.rejected_raw_kept := by
        refine H.1.mpr ?_
        left
        rw [sim_zzz]
        norm_num
      exact ⟨it, rfl, hstat, H.2.1 hstat⟩

/-! ## Claim C3 -/

theorem sim_xy : check_hallucination "xy" "xy" = 1 := by
  have h2 : matchingTotal "xy".toList "xy".toList = 2 := by decide
  have h3 : "xy".toList.length = 2 := by decide
  unfold check_hallucination seqRatio
  rw [h2, h3]
  norm_num

theorem round2_one : round2 (1 : ℚ) = 1 := by
  unfold round2 roundHalfEven
  norm_num

/-- Claim C3 counterexample: the input `rawC3` has segment `"a"` with
speaker `"S1"` and segment `"b"` with speaker `"S2"`; the service
proposes merging both.  `run_stitching_logic` performs no speaker
check: it emits the merged group as a `Verified` sentence whose
`source_ids = ["a", "b"]` span two speakers, labelled with the first
segment's speaker `"S1"`. -/
theorem cross_speaker_cex :
    (run_stitching_logic svcC3 rawC3).map
        (fun it => (it.source_ids, it.speaker, it.status)) =
      [(["a", "b"], "S1", StitchStatus.verified)] ∧
      rawC3.map Seg.speaker = ["S1", "S2"] := by
  have hv : validIds rawC3 sentC3 = ["a", "b"] := by decide
  have horig : origTextOf rawC3 ["a", "b"] = "xy" := by decide
  have hlen : ("xy" : String).length = 2 := by decide
  have hst : sentC3.text = "xy" := rfl
  have hfa : batchMapFind rawC3 "a" =
      some { id := "a", start := 0, stop := 1, speaker := "S1", text := "x" } := rfl
  have hfb : batchMapFind rawC3 "b" =
      some { id := "b", start := 1, stop := 2, speaker := "S2", text := "y" } := rfl
  simp only [rawC3] at hv horig hfa hfb
  constructor
  · simp only [run_stitching_logic, rawC3, chunksOf5, stitchGo, processWindow, svcC3,
      processSentences, stitchItem, hv, horig, hst, sim_xy, hlen, hfa, hfb,
      List.getLastD, round2_one]
    norm_num
  · rfl

/-- Claim C3 (amended): `run_stitching_logic` performs no cross-speaker
check at all: a proposed group is emitted whenever it has at least one
valid source id, regardless of whether its segments share a speaker,
and the emitted sentence's `speaker` is simply the speaker of the
first valid source segment — so an output `StitchedSentence` can have
`source_ids` spanning more than one speaker (see the counterexample). -/
theorem cross_speaker_amended (batch : List Seg) (n : ℕ) (sent : VerifiedSentence) :
    ((stitchItem batch n sent).isSome ↔ validIds batch sent ≠ []) ∧
      ∀ it, stitchItem batch n sent = some it →
        it.source_ids = validIds batch sent ∧
        ∀ v0 rest, validIds batch sent = v0 :: rest →
          ∃ s, batchMapFind batch v0 = some s ∧ it.speaker = s.speaker := by
  constructor
  · unfold stitchItem
    cases hvs : validIds batch sent with
    | nil => simp
    | cons v0 rest => simp
  · intro it hit
    obtain ⟨v0, rest, hvs, hrec⟩ := stitchItem_eq batch n sent it hit
    constructor
    · rw [hrec, hvs]
    · intro w0 wrest hw
      rw [hvs] at hw
      injection hw with h1 h2
      subst h1
      have hmem : v0 ∈ validIds batch sent := by
        rw [hvs]; exact List.mem_cons_self _ _
      obtain ⟨s, hs, _⟩ := batchMapFind_isSome_of_mem_validIds batch sent v0 hmem
      refine ⟨s, hs, ?_⟩
      rw [hrec]
      show ((batchMapFind batch v0).map Seg.speaker).getD "" = s.speaker
      rw [hs]
      rfl

/-- Claim C3 witness: the amended theorem at the concrete cross-speaker
window — the emitted sentence keeps the first segment's speaker `"S1"`
even though its second source has speaker `"S2"`. -/
theorem cross_speaker_amended_witness :
    ∃ it, stitchItem rawC3 0 sentC3 = some it ∧ it.source_ids = ["a", "b"] ∧
      it.speaker = "S1" := by
  have hv : validIds rawC3 sentC3 = ["a", "b"] := by decide
  cases hsi : stitchItem rawC3 0 sentC3 with
  | none =>
    exfalso
    have hiff := (cross_speaker_amended rawC3 0 sentC3).1
    rw [hsi, hv] at hiff
    simp at hiff
  | some it =>
    have H := (cross_speaker_amended rawC3 0 sentC3).2 it hsi
    obtain ⟨s, hs, hsp⟩ := H.2 "a" ["b"] hv
    have hfa : batchMapFind rawC3 "a" =
        some { id := "a", start := 0, stop := 1, speaker := "S1", text := "x" } := rfl
    rw [hfa] at hs
    injection hs with hseq
    refine ⟨it, rfl, H.1.trans hv, ?_⟩
    rw [hsp, ← hseq]

/-! ## Claim C5 -/

/-- Claim C5: when the completion service fails on all three attempts
for a window (`batch`), `run_stitching_logic` emits, in place of that
window and in input order, exactly one sentence per input segment with
`source_ids = [segment id]`, the segment's original text, `status =
Raw_Fallback` and `verification_score = 1.0`; the rest of the run is
unaffected (the output is `pre ++ fallback ++ post`), so the failure
never aborts the whole run. -/
theorem stitcher_fallback_on_exhausted_retries
    (attempts : List Seg → ℕ → Option DatasetEntry) (raw batch : List Seg)
    (hb : batch ∈ chunksOf5 raw)
    (hfail : ∀ k, k < 3 → attempts batch k = none) :
    ∃ pre post : List StitchedItem,
      run_stitching_logic (process_batch_safe attempts) raw =
          pre ++ fallbackList batch pre.length ++ post ∧
        (fallbackList batch pre.length).length = batch.length ∧
        ∀ j (hj : j < batch.length) (hj' : j < (fallbackList batch pre.length).length),
          (fallbackList batch pre.length).get ⟨j, hj'⟩ =
            { start := (batch.get ⟨j, hj⟩).start, stop := (batch.get ⟨j, hj⟩).stop,
              speaker := (batch.get ⟨j, hj⟩).speaker, text := (batch.get ⟨j, hj⟩).text,
              source_ids := [(batch.get ⟨j, hj⟩).id], verification_score := 1,
              status := StitchStatus.raw_fallback, sentence_id := pre.length + j } := by
  obtain ⟨bs1, bs2, hsplit⟩ := List.append_of_mem hb
  have hsvc : process_batch_safe attempts batch = none :=
    retry3_eq_none _ (fun k hk => hfail k hk)
  refine ⟨stitchGo (process_batch_safe attempts) bs1 0,
    stitchGo (process_batch_safe attempts) bs2
      ((stitchGo (process_batch_safe attempts) bs1 0).length +
        (fallbackList batch
          (stitchGo (process_batch_safe attempts) bs1 0).length).length),
    ?_, fallbackList_length _ _, fun j hj hj' => fallbackList_get batch _ j hj hj'⟩
  unfold run_stitching_logic
  rw [hsplit, stitchGo_append]
  simp only [stitchGo, processWindow, hsvc, Nat.zero_add, List.append_assoc]

/-- Claim C5 witness: total service failure on the two-segment input
`rawC5` (a single window) — the run degrades to the two per-segment
fallback sentences. -/
theorem stitcher_fallback_on_exhausted_retries_witness :
    ∃ pre post : List StitchedItem,
      run_stitching_logic (process_batch_safe (fun _ _ => none)) rawC5 =
          pre ++ fallbackList rawC5 pre.length ++ post ∧
        (fallbackList rawC5 pre.length).length = rawC5.length ∧
        ∀ j (hj : j < rawC5.length) (hj' : j < (fallbackList rawC5 pre.length).length),
          (fallbackList rawC5 pre.length).get ⟨j, hj'⟩ =
            { start := (rawC5.get ⟨j, hj⟩).start, stop := (rawC5.get ⟨j, hj⟩).stop,
              speaker := (rawC5.get ⟨j, hj⟩).speaker, text := (rawC5.get ⟨j, hj⟩).text,
              source_ids := [(rawC5.get ⟨j, hj⟩).id], verification_score := 1,
              status := StitchStatus.raw_fallback, sentence_id := pre.length + j } :=
  stitcher_fallback_on_exhausted_retries (fun _ _ => none) rawC5 rawC5
    (by rw [show chunksOf5 rawC5 = [rawC5] from rfl]; exact List.mem_singleton_self _)
    (fun _ _ => rfl)

/-! ## Flagger lemmas (claims C6 and C10) -/

theorem initFlag_defaults (data : List FlagRec) (n : ℕ) :
    ∀ r ∈ initFlag data n, r.needs_review = false ∧ r.review_reason = none ∧
      r.suggested_correction = none := by
  induction data generalizing n with
  | nil => intro r hr; simp [initFlag] at hr
  | cons x rest ih =>
    intro r hr
    rcases List.mem_cons.mp hr with h | h
    · rw [h]; exact ⟨rfl, rfl, rfl⟩
    · exact ih (n + 1) r h

theorem initFlag_length (data : List FlagRec) (n : ℕ) :
    (initFlag data n).length = data.length := by
  induction data generalizing n with
  | nil => rfl
  | cons x rest ih => simp [initFlag, ih]

theorem initFlag_get (data : List FlagRec) (n j : ℕ) (hj : j < data.length)
    (hj' : j < (initFlag data n).length) :
    (initFlag data n).get ⟨j, hj'⟩ =
      { data.get ⟨j, hj⟩ with
        sentence_id := some ((data.get ⟨j, hj⟩).sentence_id.getD ((n + j : ℕ) : ℤ))
        needs_review := false
        review_reason := none
        suggested_correction := none } := by
  induction data generalizing n j with
  | nil => simp at hj
  | cons x rest ih =>
    cases j with
    | zero => simp [initFlag]
    | succ j' =>
      have hj2 : j' < rest.length := by simpa using hj
      have hj2' : j' < (initFlag rest (n + 1)).length := by
        rw [initFlag_length]; exact hj2
      have hrec := ih (n + 1) j' hj2 hj2'
      rw [show n + 1 + j' = n + (j' + 1) from by omega] at hrec
      have h1 : (initFlag (x :: rest) n).get ⟨j' + 1, hj'⟩ =
          (initFlag rest (n + 1)).get ⟨j', hj2'⟩ := rfl
      have h2 : ((x :: rest).get ⟨j' + 1, hj⟩) = rest.get ⟨j', hj2⟩ := rfl
      rw [h1, hrec, h2]

theorem processFlagBatch_length (svc : List FlagRec → Option HealthReport)
    (batch : List FlagRec) :
    (processFlagBatch svc batch).length = batch.length := by
  unfold processFlagBatch
  cases svc batch <;> simp

theorem processFlagBatch_get_some (svc : List FlagRec → Option HealthReport)
    (batch : List FlagRec) (rep : HealthReport) (h : svc batch = some rep)
    (j : ℕ) (hj : j < batch.length) (hj' : j < (processFlagBatch svc batch).length) :
    (processFlagBatch svc batch).get ⟨j, hj'⟩ = applyReport rep (batch.get ⟨j, hj⟩) := by
  have hq : (processFlagBatch svc batch)[j]? = (batch[j]?).map (applyReport rep) := by
    unfold processFlagBatch
    rw [h]
    simp [List.getElem?_map]
  have h1 : (processFlagBatch svc batch)[j]? =
      some ((processFlagBatch svc batch).get ⟨j, hj'⟩) := by
    simp [List.getElem?_eq_getElem hj', List.get_eq_getElem]
  have h2 : batch[j]? = some (batch.get ⟨j, hj⟩) := by
    simp [List.getElem?_eq_getElem hj, List.get_eq_getElem]
  rw [hq, h2] at h1
  injection h1 with h1
  exact h1.symm

theorem processFlagBatch_get_none (svc : List FlagRec → Option HealthReport)
    (batch : List FlagRec) (h : svc batch = none)
    (j : ℕ) (hj : j < batch.length) (hj' : j < (processFlagBatch svc batch).length) :
    (processFlagBatch svc batch).get ⟨j, hj'⟩ = markFailed (batch.get ⟨j, hj⟩) := by
  have hq : (processFlagBatch svc batch)[j]? = (batch[j]?).map markFailed := by
    unfold processFlagBatch
    rw [h]
    simp [List.getElem?_map]
  have h1 : (processFlagBatch svc batch)[j]? =
      some ((processFlagBatch svc batch).get ⟨j, hj'⟩) := by
    simp [List.getElem?_eq_getElem hj', List.get_eq_getElem]
  have h2 : batch[j]? = some (batch.get ⟨j, hj⟩) := by
    simp [List.getElem?_eq_getElem hj, List.get_eq_getElem]
  rw [hq, h2] at h1
  injection h1 with h1
  exact h1.symm

/-! ## Claim C6 -/

/-- Claim C6: in `run_anomaly_detector` (whose output is the
concatenation of the per-batch results, first conjunct), every
initialised sentence starts with `needs_review = false` and null review
fields (second conjunct), and per batch and sentence: `needs_review`
can only become `true` when the service's returned report contains an
assessment for that exact `sentence_id` with `is_suspicious = true`
(in which case the reason and the suggested correction are carried
over); a sentence whose id is missing from a returned report is left
exactly at its defaults; and when all three attempts for a batch fail,
every sentence of the batch keeps `needs_review = false` and gets
`review_reason = "Analysis_Failed"`. -/
theorem flagger_conservatism
    (attempts : List FlagRec → ℕ → Option HealthReport) (data : List FlagRec) :
    run_anomaly_detector (analyze_batch_safe attempts) data =
        ((chunksOf5 (initFlag data 0)).map
          (processFlagBatch (analyze_batch_safe attempts))).flatten ∧
      (∀ r ∈ initFlag data 0, r.needs_review = false ∧ r.review_reason = none ∧
        r.suggested_correction = none) ∧
      ∀ batch ∈ chunksOf5 (initFlag data 0), ∀ j (hj : j < batch.length)
        (hj' : j < (processFlagBatch (analyze_batch_safe attempts) batch).length),
        ((((processFlagBatch (analyze_batch_safe attempts) batch).get
              ⟨j, hj'⟩).needs_review = true →
          ∃ rep a, analyze_batch_safe attempts batch = some rep ∧
            assessmentFor rep ((batch.get ⟨j, hj⟩).sentence_id.getD 0) = some a ∧
            a.is_suspicious = true ∧
            ((processFlagBatch (analyze_batch_safe attempts) batch).get
              ⟨j, hj'⟩).review_reason = some (formatReason a) ∧
            ((processFlagBatch (analyze_batch_safe attempts) batch).get
              ⟨j, hj'⟩).suggested_correction = a.suggested_correction) ∧
          (∀ rep, analyze_batch_safe attempts batch = some rep →
            assessmentFor rep ((batch.get ⟨j, hj⟩).sentence_id.getD 0) = none →
            (processFlagBatch (analyze_batch_safe attempts) batch).get ⟨j, hj'⟩ =
              batch.get ⟨j, hj⟩) ∧
          ((∀ k, k < 3 → attempts batch k = none) →
            (((processFlagBatch (analyze_batch_safe attempts) batch).get
              ⟨j, hj'⟩).needs_review = false ∧
            ((processFlagBatch (analyze_batch_safe attempts) batch).get
              ⟨j, hj'⟩).review_reason = some "Analysis_Failed"))) := by
  refine ⟨rfl, initFlag_defaults data 0, ?_⟩
  intro batch hbatch j hj hj'
  have hdef := initFlag_defaults data 0 (batch.get ⟨j, hj⟩)
    (mem_of_mem_chunksOf5 hbatch (batch.get_mem j hj))
  refine ⟨?_, ?_, ?_⟩
  · intro hnr
    cases hsvc : analyze_batch_safe attempts batch with
    | none =>
      rw [processFlagBatch_get_none _ _ hsvc j hj hj'] at hnr
      have hx : (batch.get ⟨j, hj⟩).needs_review = true := hnr
      rw [hdef.1] at hx
      exact absurd hx (by simp)
    | some rep =>
      have hpost := processFlagBatch_get_some _ _ _ hsvc j hj hj'
      rw [hpost] at hnr
      cases hass : assessmentFor rep ((batch.get ⟨j, hj⟩).sentence_id.getD 0) with
      | none =>
        have happ : applyReport rep (batch.get ⟨j, hj⟩) = batch.get ⟨j, hj⟩ := by
          unfold applyReport
          rw [hass]
        rw [happ, hdef.1] at hnr
        exact absurd hnr (by simp)
      | some a =>
        by_cases ha : a.is_suspicious = true
        · have happ : applyReport rep (batch.get ⟨j, hj⟩) =
              { batch.get ⟨j, hj⟩ with
                needs_review := true
                review_reason := some (formatReason a)
                suggested_correction := a.suggested_correction } := by
            unfold applyReport
            rw [hass]
            simp [ha]
          exact ⟨rep, a, rfl, hass, ha, by rw [hpost, happ], by rw [hpost, happ]⟩
        · have happ : applyReport rep (batch.get ⟨j, hj⟩) = batch.get ⟨j, hj⟩ := by
            unfold applyReport
            rw [hass]
            simp [ha]
          rw [happ, hdef.1] at hnr
          exact absurd hnr (by simp)
  · intro rep hsvc hass
    rw [processFlagBatch_get_some _ _ _ hsvc j hj hj']
    show applyReport rep (batch.get ⟨j, hj⟩) = batch.get ⟨j, hj⟩
    unfold applyReport
    rw [hass]
  · intro hfailk
    have hsvc : analyze_batch_safe attempts batch = none :=
      retry3_eq_none _ (fun k hk => hfailk k hk)
    rw [processFlagBatch_get_none _ _ hsvc j hj hj']
    exact ⟨hdef.1, rfl⟩

/-- Claim C6 witness: the theorem at concrete inputs — a batch whose
service call fails on all three attempts keeps `needs_review = false`
and gets `review_reason = "Analysis_Failed"`; and a sentence whose id
is absent from the returned report is left untouched. -/
theorem flagger_conservatism_witness :
    (((processFlagBatch (analyze_batch_safe attemptsC6fail) (initFlag dataC6 0)).get
        ⟨0, by decide⟩).needs_review = false ∧
      ((processFlagBatch (analyze_batch_safe attemptsC6fail) (initFlag dataC6 0)).get
        ⟨0, by decide⟩).review_reason = some "Analysis_Failed") ∧
      (processFlagBatch (analyze_batch_safe attemptsC6) (initFlag dataC6 0)).get
          ⟨1, by decide⟩ = (initFlag dataC6 0).get ⟨1, by decide⟩ := by
  have hbf : initFlag dataC6 0 ∈ chunksOf5 (initFlag dataC6 0) := by
    rw [show chunksOf5 (initFlag dataC6 0) = [initFlag dataC6 0] from rfl]
    exact List.mem_singleton_self _
  constructor
  · exact ((flagger_conservatism attemptsC6fail dataC6).2.2 (initFlag dataC6 0) hbf 0
      (by decide) (by decide)).2.2 (fun _ _ => rfl)
  · exact ((flagger_conservatism attemptsC6 dataC6).2.2 (initFlag dataC6 0) hbf 1
      (by decide) (by decide)).2.1 { assessments := [assessC6] } rfl (by decide)

/-! ## Claim C10 -/

theorem forall₂_map_self {α : Type} (R : α → α → Prop) (f : α → α)
    (hf : ∀ x, R x (f x)) (l : List α) : List.Forall₂ R l (l.map f) := by
  induction l with
  | nil => exact List.Forall₂.nil
  | cons x rest ih => exact List.Forall₂.cons (hf x) ih

theorem forall₂_chunked_map {α : Type} (R : α → α → Prop) (g : List α → α → α)
    (hg : ∀ b x, R x (g b x)) (l : List α) :
    List.Forall₂ R l (((chunksOf5 l).map (fun b => b.map (g b))).flatten) := by
  induction l using chunksOf5.induct with
  | case1 => exact List.Forall₂.nil
  | case2 a b c d e rest ih =>
    show List.Forall₂ R ([a, b, c, d, e] ++ rest)
      ([a, b, c, d, e].map (g [a, b, c, d, e]) ++
        ((chunksOf5 rest).map (fun b => b.map (g b))).flatten)
    exact List.rel_append (forall₂_map_self R (g [a, b, c, d, e]) (hg _) _) ih
  | case3 l h1 h2 =>
    have hc : chunksOf5 l = [l] := by
      simp [chunksOf5, h1, h2]
    rw [hc]
    simp only [List.map_cons, List.map_nil, List.flatten_cons, List.flatten_nil,
      List.append_nil]
    exact forall₂_map_self R (g l) (hg l) l

theorem processFlagBatch_eq_map (svc : List FlagRec → Option HealthReport)
    (b : List FlagRec) :
    processFlagBatch svc b = b.map (fun x =>
      match svc b with
      | some rep => applyReport rep x
      | none => markFailed x) := by
  unfold processFlagBatch
  cases svc b <;> rfl

/-- Claim C10: `run_anomaly_detector` returns as many sentences as it
was given, in the same order, and for every sentence it leaves `start`,
`end`, `speaker`, `text`, `source_ids`, `verification_score` and
`status` unchanged; the only fields it writes are the review fields —
plus `sentence_id`, which becomes the enumeration index when the input
had none. -/
theorem flagger_frame (svc : List FlagRec → Option HealthReport)
    (data : List FlagRec) :
    (run_anomaly_detector svc data).length = data.length ∧
      ∀ j (hj : j < data.length) (hj' : j < (run_anomaly_detector svc data).length),
        ((run_anomaly_detector svc data).get ⟨j, hj'⟩).start = (data.get ⟨j, hj⟩).start ∧
        ((run_anomaly_detector svc data).get ⟨j, hj'⟩).stop = (data.get ⟨j, hj⟩).stop ∧
        ((run_anomaly_detector svc data).get ⟨j, hj'⟩).speaker = (data.get ⟨j, hj⟩).speaker ∧
        ((run_anomaly_detector svc data).get ⟨j, hj'⟩).text = (data.get ⟨j, hj⟩).text ∧
        ((run_anomaly_detector svc data).get ⟨j, hj'⟩).source_ids = (data.get ⟨j, hj⟩).source_ids ∧
        ((run_anomaly_detector svc data).get ⟨j, hj'⟩).verification_score =
          (data.get ⟨j, hj⟩).verification_score ∧
        ((run_anomaly_detector svc data).get ⟨j, hj'⟩).status = (data.get ⟨j, hj⟩).status ∧
        ((run_anomaly_detector svc data).get ⟨j, hj'⟩).sentence_id =
          some ((data.get ⟨j, hj⟩).sentence_id.getD (j : ℤ)) := by
  have hmapeq : processFlagBatch svc = fun b => b.map (fun x =>
      match svc b with
      | some rep => applyReport rep x
      | none => markFailed x) := funext (processFlagBatch_eq_map svc)
  have hout : run_anomaly_detector svc data =
      ((chunksOf5 (initFlag data 0)).map (fun b => b.map (fun x =>
        match svc b with
        | some rep => applyReport rep x
        | none => markFailed x))).flatten := by
    unfold run_anomaly_detector
    rw [hmapeq]
  have happframe : ∀ (rep : HealthReport) (x : FlagRec),
      (applyReport rep x).start = x.start ∧ (applyReport rep x).stop = x.stop ∧
      (applyReport rep x).speaker = x.speaker ∧ (applyReport rep x).text = x.text ∧
      (applyReport rep x).source_ids = x.source_ids ∧
      (applyReport rep x).verification_score = x.verification_score ∧
      (applyReport rep x).status = x.status ∧
      (applyReport rep x).sentence_id = x.sentence_id := by
    intro rep x
    unfold applyReport
    cases assessmentFor rep (x.sentence_id.getD 0) with
    | none => exact ⟨rfl, rfl, rfl, rfl, rfl, rfl, rfl, rfl⟩
    | some a =>
      by_cases ha : a.is_suspicious = true
      · simp [if_pos ha]
      · simp [if_neg ha]
  have hg : ∀ (b : List FlagRec) (x : FlagRec),
      (fun x y => y.start = x.start ∧ y.stop = x.stop ∧ y.speaker = x.speaker ∧
        y.text = x.text ∧ y.source_ids = x.source_ids ∧
        y.verification_score = x.verification_score ∧ y.status = x.status ∧
        y.sentence_id = x.sentence_id) x
      ((fun x =>
        match svc b with
        | some rep => applyReport rep x
        | none => markFailed x) x) := by
    intro b x
    dsimp only
    cases hsb : svc b with
    | none => exact ⟨rfl, rfl, rfl, rfl, rfl, rfl, rfl, rfl⟩
    | some rep => exact happframe rep x
  have hF := forall₂_chunked_map
    (fun x y => y.start = x.start ∧ y.stop = x.stop ∧ y.speaker = x.speaker ∧
      y.text = x.text ∧ y.source_ids = x.source_ids ∧
      y.verification_score = x.verification_score ∧ y.status = x.status ∧
      y.sentence_id = x.sentence_id)
    (fun (b : List FlagRec) (x : FlagRec) =>
      match svc b with
      | some rep => applyReport rep x
      | none => markFailed x)
    hg (initFlag data 0)
  have hout2 : run_anomaly_detector svc data =
      ((chunksOf5 (initFlag data 0)).map (fun b => b.map
        ((fun (b : List FlagRec) (x : FlagRec) =>
          match svc b with
          | some rep => applyReport rep x
          | none => markFailed x) b))).flatten := hout
  rw [← hout2] at hF
  have hFg := List.forall₂_iff_get.mp hF
  constructor
  · rw [← hFg.1, initFlag_length]
  · intro j hj hj'
    have hji : j < (initFlag data 0).length := by
      rw [initFlag_length]; exact hj
    have hR := hFg.2 j hji hj'
    have hinit := initFlag_get data 0 j hj hji
    rw [show (0 + j : ℕ) = j from Nat.zero_add j] at hinit
    rw [hinit] at hR
    exact hR

/-- Claim C10 witness: the theorem at a concrete input whose only
sentence the service flags as suspicious — the core fields and the
pre-existing `sentence_id` still pass through unchanged. -/
theorem flagger_frame_witness :
    (run_anomaly_detector svcC10 dataC10).length = dataC10.length ∧
      ((run_anomaly_detector svcC10 dataC10).get ⟨0, by decide⟩).text =
        (dataC10.get ⟨0, by decide⟩).text ∧
      ((run_anomaly_detector svcC10 dataC10).get ⟨0, by decide⟩).speaker =
        (dataC10.get ⟨0, by decide⟩).speaker ∧
      ((run_anomaly_detector svcC10 dataC10).get ⟨0, by decide⟩).sentence_id =
        some ((dataC10.get ⟨0, by decide⟩).sentence_id.getD 0) := by
  have H := flagger_frame svcC10 dataC10
  have H0 := H.2 0 (by decide) (by decide)
  exact ⟨H.1, H0.2.2.2.1, H0.2.2.1, H0.2.2.2.2.2.2.2⟩

/-! ## Aligner lemmas (claim C4) -/

theorem lookup_cons_pair (k s : String) (v : ℚ) (l : List (String × ℚ)) :
    ((k, v) :: l).lookup s = if s = k then some v else l.lookup s := by
  show (match s == k with | true => some v | false => l.lookup s) = _
  by_cases h : s = k
  · simp [h]
  · have hb : (s == k) = false := by simp [h]
    rw [hb, if_neg h]

theorem lookup_map_update (ps : List (String × ℚ)) (spk s : String) (v : ℚ) :
    List.lookup s (ps.map (fun p => if p.1 = spk then (p.1, p.2 + v) else p)) =
      if s = spk then (List.lookup s ps).map (· + v) else List.lookup s ps := by
  induction ps with
  | nil => by_cases hs : s = spk <;> simp [hs, List.lookup]
  | cons p ps ih =>
    obtain ⟨k, w⟩ := p
    by_cases hk : k = spk
    · subst hk
      simp only [List.map_cons, if_true]
      simp only [lookup_cons_pair]
      by_cases hs : s = k
      · simp [hs]
      · simp [hs, ih]
    · simp only [List.map_cons]
      rw [if_neg hk]
      simp only [lookup_cons_pair]
      by_cases hs : s = k
      · have hss : ¬s = spk := fun h => hk (hs.symm.trans h)
        simp [hs, hss, hk]
      · simp [hs, ih]

theorem lookup_append_new (ps : List (String × ℚ)) (spk s : String) (v : ℚ)
    (hnone : List.lookup spk ps = none) :
    List.lookup s (ps ++ [(spk, v)]) =
      if s = spk then some v else List.lookup s ps := by
  induction ps with
  | nil =>
    simp only [List.nil_append, lookup_cons_pair]
  | cons p ps ih =>
    obtain ⟨k, w⟩ := p
    rw [lookup_cons_pair] at hnone
    by_cases hks : spk = k
    · rw [if_pos hks] at hnone
      exact absurd hnone (by simp)
    · rw [if_neg hks] at hnone
      simp only [List.cons_append, lookup_cons_pair]
      by_cases hs : s = k
      · have hss : ¬s = spk := fun h => hks (h.symm.trans hs)
        have hk2 : ¬k = spk := fun h => hks h.symm
        simp [hs, hss, hk2]
      · simp [hs, ih hnone]

theorem lookup_addScore (scores : List (String × ℚ)) (spk : String) (v : ℚ)
    (s : String) :
    ((addScore scores spk v).lookup s).getD 0 =
      if s = spk then ((scores.lookup s).getD 0) + v
      else (scores.lookup s).getD 0 := by
  unfold addScore
  by_cases hmem : (List.lookup spk scores).isSome = true
  · rw [if_pos hmem, lookup_map_update]
    by_cases hs : s = spk
    · rw [if_pos hs, if_pos hs]
      subst hs
      cases hl : List.lookup s scores with
      | none => rw [hl] at hmem; simp at hmem
      | some w => simp
    · rw [if_neg hs, if_neg hs]
  · rw [if_neg hmem]
    have hnone : List.lookup spk scores = none := by
      cases hl : List.lookup spk scores with
      | none => rfl
      | some w => rw [hl] at hmem; simp at hmem
    rw [lookup_append_new scores spk s v hnone]
    by_cases hs : s = spk
    · rw [if_pos hs, if_pos hs]
      subst hs
      rw [hnone]
      simp
    · rw [if_neg hs, if_neg hs]

theorem sumMax0_cons (w : WSeg) (d : DSeg) (ds : List DSeg) (s : String) :
    sumMax0 w (d :: ds) s =
      (if d.speaker = s then max 0 (min w.stop d.stop - max w.start d.start) else 0) +
        sumMax0 w ds s := by
  unfold sumMax0
  by_cases h : d.speaker = s
  · simp [List.filter_cons, h]
  · simp [List.filter_cons, h]

theorem speakerScores_lookup_aux (w : WSeg) (ds : List DSeg)
    (acc : List (String × ℚ)) (s : String) :
    ((ds.foldl (fun scores d =>
        let interStart := max w.start d.start
        let interEnd := min w.stop d.stop
        if interStart < interEnd then addScore scores d.speaker (interEnd - interStart)
        else scores) acc).lookup s).getD 0 =
      (acc.lookup s).getD 0 + sumMax0 w ds s := by
  induction ds generalizing acc with
  | nil =>
    unfold sumMax0
    simp
  | cons d rest ih =>
    simp only [List.foldl_cons]
    rw [ih, sumMax0_cons]
    by_cases hpos : max w.start d.start < min w.stop d.stop
    · rw [if_pos hpos, lookup_addScore]
      by_cases hs : s = d.speaker
      · rw [if_pos hs, if_pos (by rw [hs])]
        rw [max_eq_right (le_of_lt (by linarith [hpos] : (0 : ℚ) < min w.stop d.stop - max w.start d.start))]
        ring
      · rw [if_neg hs, if_neg (fun h => hs h.symm)]
        ring
    · rw [if_neg hpos]
      have hz : max 0 (min w.stop d.stop - max w.start d.start) = 0 :=
        max_eq_left (by linarith [not_lt.mp hpos])
      by_cases hs : d.speaker = s
      · rw [if_pos hs, hz]
        ring
      · rw [if_neg hs]
        ring

theorem speakerScores_lookup (w : WSeg) (dsegs : List DSeg) (s : String) :
    (((speakerScores w dsegs).lookup s).getD 0) = sumMax0 w dsegs s := by
  unfold speakerScores
  rw [speakerScores_lookup_aux]
  simp [List.lookup]

theorem foldl_best_spec (p : String × ℚ) (rest : List (String × ℚ)) :
    (rest.foldl (fun b q => if b.2 < q.2 then q else b) p) ∈ p :: rest ∧
      ∀ q ∈ p :: rest, q.2 ≤ (rest.foldl (fun b q => if b.2 < q.2 then q else b) p).2 := by
  induction rest generalizing p with
  | nil =>
    constructor
    · exact List.mem_singleton_self p
    · intro q hq
      rw [List.mem_singleton.mp hq]
      exact le_refl _
  | cons r rs ih =>
    have ih' := ih (if p.2 < r.2 then r else p)
    simp only [List.foldl_cons]
    constructor
    · rcases List.mem_cons.mp ih'.1 with h | h
      · by_cases hpr : p.2 < r.2
        · rw [if_pos hpr] at h ⊢
          rw [h]
          exact List.mem_cons_of_mem _ (List.mem_cons_self _ _)
        · rw [if_neg hpr] at h ⊢
          rw [h]
          exact List.mem_cons_self _ _
      · exact List.mem_cons_of_mem _ (List.mem_cons_of_mem _ h)
    · intro q hq
      rcases List.mem_cons.mp hq with h | h
      · rw [h]
        have h1 : p.2 ≤ (if p.2 < r.2 then r else p).2 := by
          by_cases hpr : p.2 < r.2
          · rw [if_pos hpr]; exact le_of_lt hpr
          · rw [if_neg hpr]
        exact le_trans h1 (ih'.2 _ (List.mem_cons_self _ _))
      rcases List.mem_cons.mp h with h2 | h2
      · rw [h2]
        have h1 : r.2 ≤ (if p.2 < r.2 then r else p).2 := by
          by_cases hpr : p.2 < r.2
          · rw [if_pos hpr]
          · rw [if_neg hpr]; exact not_lt.mp hpr
        exact le_trans h1 (ih'.2 _ (List.mem_cons_self _ _))
      · exact ih'.2 q (List.mem_cons_of_mem _ h2)

theorem bestSpeaker_spec (p : String × ℚ) (rest : List (String × ℚ)) :
    ∃ pr ∈ p :: rest, bestSpeaker (p :: rest) = pr.1 ∧
      ∀ q ∈ p :: rest, q.2 ≤ pr.2 :=
  ⟨_, (foldl_best_spec p rest).1, rfl, (foldl_best_spec p rest).2⟩

theorem addScore_inv (scores : List (String × ℚ)) (spk : String) (v : ℚ)
    (hv : 0 < v) (P : String → Prop)
    (hsc : ∀ pr ∈ scores, 0 < pr.2 ∧ P pr.1) (hspk : P spk) :
    ∀ pr ∈ addScore scores spk v, 0 < pr.2 ∧ P pr.1 := by
  unfold addScore
  by_cases hmem : (List.lookup spk scores).isSome = true
  · rw [if_pos hmem]
    intro pr hpr
    obtain ⟨q, hq, hfq⟩ := List.mem_map.mp hpr
    by_cases hqk : q.1 = spk
    · rw [if_pos hqk] at hfq
      rw [← hfq]
      exact ⟨add_pos (hsc q hq).1 hv, (hsc q hq).2⟩
    · rw [if_neg hqk] at hfq
      rw [← hfq]
      exact hsc q hq
  · rw [if_neg hmem]
    intro pr hpr
    rcases List.mem_append.mp hpr with h | h
    · exact hsc pr h
    · rw [List.mem_singleton.mp h]
      exact ⟨hv, hspk⟩

theorem speakerScores_inv (w : WSeg) (dsegs : List DSeg) :
    ∀ pr ∈ speakerScores w dsegs, 0 < pr.2 ∧ ∃ d ∈ dsegs, d.speaker = pr.1 := by
  unfold speakerScores
  have main : ∀ (ds : List DSeg) (acc : List (String × ℚ)),
      (∀ d ∈ ds, ∃ d' ∈ dsegs, d'.speaker = d.speaker) →
      (∀ pr ∈ acc, 0 < pr.2 ∧ ∃ d ∈ dsegs, d.speaker = pr.1) →
      ∀ pr ∈ ds.foldl (fun scores d =>
        let interStart := max w.start d.start
        let interEnd := min w.stop d.stop
        if interStart < interEnd then addScore scores d.speaker (interEnd - interStart)
        else scores) acc, 0 < pr.2 ∧ ∃ d ∈ dsegs, d.speaker = pr.1 := by
    intro ds
    induction ds with
    | nil => intro acc _ hacc; exact hacc
    | cons d rest ih =>
      intro acc hds hacc
      simp only [List.foldl_cons]
      by_cases hpos : max w.start d.start < min w.stop d.stop
      · refine ih _ (fun d' hd' => hds d' (List.mem_cons_of_mem _ hd')) ?_
        dsimp only
        rw [if_pos hpos]
        exact addScore_inv acc d.speaker (min w.stop d.stop - max w.start d.start)
          (by linarith) (fun s => ∃ d' ∈ dsegs, d'.speaker = s) hacc
          (hds d (List.mem_cons_self _ _))
      · refine ih _ (fun d' hd' => hds d' (List.mem_cons_of_mem _ hd')) ?_
        dsimp only
        rw [if_neg hpos]
        exact hacc
  exact main dsegs [] (fun d hd => ⟨d, hd, rfl⟩) (fun pr hpr => by simp at hpr)

theorem addScore_ne_nil (scores : List (String × ℚ)) (spk : String) (v : ℚ) :
    addScore scores spk v ≠ [] := by
  unfold addScore
  by_cases hmem : (List.lookup spk scores).isSome = true
  · rw [if_pos hmem]
    cases scores with
    | nil => simp [List.lookup] at hmem
    | cons p ps => simp
  · rw [if_neg hmem]
    simp

theorem scoresStep_ne_nil (w : WSeg) (ds : List DSeg) (acc : List (String × ℚ))
    (hacc : acc ≠ []) :
    ds.foldl (fun scores d =>
      let interStart := max w.start d.start
      let interEnd := min w.stop d.stop
      if interStart < interEnd then addScore scores d.speaker (interEnd - interStart)
      else scores) acc ≠ [] := by
  induction ds generalizing acc with
  | nil => exact hacc
  | cons d rest ih =>
    simp only [List.foldl_cons]
    by_cases hpos : max w.start d.start < min w.stop d.stop
    · rw [if_pos hpos]
      exact ih _ (addScore_ne_nil _ _ _)
    · rw [if_neg hpos]
      exact ih _ hacc

theorem speakerScores_ne_nil (w : WSeg) (dsegs : List DSeg)
    (hpos : ∃ d ∈ dsegs, max w.start d.start < min w.stop d.stop) :
    speakerScores w dsegs ≠ [] := by
  unfold speakerScores
  obtain ⟨d0, hd0, hp0⟩ := hpos
  have main : ∀ (ds : List DSeg) (acc : List (String × ℚ)),
      (∃ d ∈ ds, max w.start d.start < min w.stop d.stop) ∨ acc ≠ [] →
      ds.foldl (fun scores d =>
        let interStart := max w.start d.start
        let interEnd := min w.stop d.stop
        if interStart < interEnd then addScore scores d.speaker (interEnd - interStart)
        else scores) acc ≠ [] := by
    intro ds
    induction ds with
    | nil =>
      intro acc h
      rcases h with ⟨d, hd, _⟩ | h
      · simp at hd
      · exact h
    | cons d rest ih =>
      intro acc h
      simp only [List.foldl_cons]
      by_cases hpd : max w.start d.start < min w.stop d.stop
      · rw [if_pos hpd]
        exact ih _ (Or.inr (addScore_ne_nil _ _ _))
      · rw [if_neg hpd]
        rcases h with ⟨d', hd', hp'⟩ | h
        · rcases List.mem_cons.mp hd' with he | he
          · exact absurd (he ▸ hp') hpd
          · exact ih _ (Or.inl ⟨d', he, hp'⟩)
        · exact ih _ (Or.inr h)
  exact main dsegs [] (Or.inl ⟨d0, hd0, hp0⟩)

theorem speakerScores_eq_nil (w : WSeg) (dsegs : List DSeg)
    (hall : ∀ d ∈ dsegs, min w.stop d.stop ≤ max w.start d.start) :
    speakerScores w dsegs = [] := by
  unfold speakerScores
  induction dsegs with
  | nil => rfl
  | cons d rest ih =>
    simp only [List.foldl_cons]
    rw [if_neg (not_lt.mpr (hall d (List.mem_cons_self _ _)))]
    exact ih (fun d' hd' => hall d' (List.mem_cons_of_mem _ hd'))

theorem mem_of_lookup_eq_some (l : List (String × ℚ)) (k : String) (v : ℚ)
    (h : List.lookup k l = some v) : (k, v) ∈ l := by
  induction l with
  | nil => simp [List.lookup] at h
  | cons p ps ih =>
    obtain ⟨k', w⟩ := p
    rw [lookup_cons_pair] at h
    by_cases hk : k = k'
    · rw [if_pos hk] at h
      injection h with h
      rw [hk, h]
      exact List.mem_cons_self _ _
    · rw [if_neg hk] at h
      exact List.mem_cons_of_mem _ (ih h)

theorem lookup_isSome_iff_mem_keys (l : List (String × ℚ)) (k : String) :
    (List.lookup k l).isSome = true ↔ k ∈ l.map Prod.fst := by
  induction l with
  | nil => simp [List.lookup]
  | cons p ps ih =>
    obtain ⟨k', w⟩ := p
    rw [lookup_cons_pair]
    by_cases hk : k = k'
    · simp [hk]
    · simp only [if_neg hk, List.map_cons, List.mem_cons]
      rw [ih]
      constructor
      · exact Or.inr
      · intro h
        rcases h with h | h
        · exact absurd h hk
        · exact h

theorem lookup_eq_of_mem_nodup (l : List (String × ℚ))
    (hnd : (l.map Prod.fst).Nodup) (pr : String × ℚ) (hpr : pr ∈ l) :
    List.lookup pr.1 l = some pr.2 := by
  induction l with
  | nil => simp at hpr
  | cons q l' ih =>
    rw [lookup_cons_pair]
    rcases List.mem_cons.mp hpr with h | h
    · rw [h, if_pos rfl]
    · have hnd' := hnd
      rw [List.map_cons, List.nodup_cons] at hnd'
      by_cases hq : pr.1 = q.1
      · exfalso
        apply hnd'.1
        rw [← hq]
        exact List.mem_map.mpr ⟨pr, h, rfl⟩
      · rw [if_neg hq]
        exact ih hnd'.2 h

theorem addScore_keys (scores : List (String × ℚ)) (spk : String) (v : ℚ) :
    (addScore scores spk v).map Prod.fst =
      if (List.lookup spk scores).isSome = true then scores.map Prod.fst
      else scores.map Prod.fst ++ [spk] := by
  unfold addScore
  by_cases hmem : (List.lookup spk scores).isSome = true
  · rw [if_pos hmem, if_pos hmem, List.map_map]
    apply List.map_congr_left
    intro p _
    by_cases hp : p.1 = spk
    · simp [hp]
    · simp [hp]
  · rw [if_neg hmem, if_neg hmem, List.map_append]
    rfl

theorem speakerScores_keys_nodup (w : WSeg) (dsegs : List DSeg) :
    ((speakerScores w dsegs).map Prod.fst).Nodup := by
  unfold speakerScores
  have main : ∀ (ds : List DSeg) (acc : List (String × ℚ)),
      (acc.map Prod.fst).Nodup →
      ((ds.foldl (fun scores d =>
        let interStart := max w.start d.start
        let interEnd := min w.stop d.stop
        if interStart < interEnd then addScore scores d.speaker (interEnd - interStart)
        else scores) acc).map Prod.fst).Nodup := by
    intro ds
    induction ds with
    | nil => intro acc hacc; exact hacc
    | cons d rest ih =>
      intro acc hacc
      simp only [List.foldl_cons]
      by_cases hpos : max w.start d.start < min w.stop d.stop
      · rw [if_pos hpos]
        apply ih
        rw [addScore_keys]
        by_cases hmem : (List.lookup d.speaker acc).isSome = true
        · rw [if_pos hmem]
          exact hacc
        · rw [if_neg hmem]
          have hnm : d.speaker ∉ acc.map Prod.fst := by
            intro hin
            exact hmem ((lookup_isSome_iff_mem_keys acc d.speaker).mpr hin)
          simp [List.nodup_append, hacc, hnm]
      · rw [if_neg hpos]
        exact ih acc hacc
  exact main dsegs [] (by simp)

theorem sumMax0_nonneg (w : WSeg) (dsegs : List DSeg) (s : String) :
    0 ≤ sumMax0 w dsegs s := by
  unfold sumMax0
  apply List.sum_nonneg
  intro x hx
  obtain ⟨d, _, hd⟩ := List.mem_map.mp hx
  rw [← hd]
  exact le_max_left 0 _

theorem alignGo_length (off : ℚ) (dsegs : List DSeg) (ws : List WSeg) (idx : ℕ) :
    (alignGo off dsegs ws idx).length = ws.length := by
  induction ws generalizing idx with
  | nil => rfl
  | cons wseg rest ih => simp [alignGo, ih]

theorem alignGo_get (off : ℚ) (dsegs : List DSeg) (ws : List WSeg) (idx j : ℕ)
    (hj : j < ws.length) (hj' : j < (alignGo off dsegs ws idx).length) :
    (alignGo off dsegs ws idx).get ⟨j, hj'⟩ =
      alignOne off (idx + j) (ws.get ⟨j, hj⟩) dsegs := by
  induction ws generalizing idx j with
  | nil => simp at hj
  | cons wseg rest ih =>
    cases j with
    | zero => rfl
    | succ j' =>
      have hj2 : j' < rest.length := by simpa using hj
      have hj2' : j' < (alignGo off dsegs rest (idx + 1)).length := by
        rw [alignGo_length]; exact hj2
      have hrec := ih (idx + 1) j' hj2 hj2'
      rw [show idx + 1 + j' = idx + (j' + 1) from by omega] at hrec
      have h1 : (alignGo off dsegs (wseg :: rest) idx).get ⟨j' + 1, hj'⟩ =
          (alignGo off dsegs rest (idx + 1)).get ⟨j', hj2'⟩ := rfl
      have h2 : ((wseg :: rest).get ⟨j' + 1, hj⟩) = rest.get ⟨j', hj2⟩ := rfl
      rw [h1, hrec, h2]

theorem alignOne_speaker (off : ℚ) (idx : ℕ) (w : WSeg) (ds : List DSeg) :
    (alignOne off idx w ds).speaker = bestSpeaker (speakerScores w ds) := rfl

theorem alignOne_flag (off : ℚ) (idx : ℕ) (w : WSeg) (ds : List DSeg) :
    (alignOne off idx w ds).flag =
      if bestSpeaker (speakerScores w ds) = "Unknown" then AlignFlag.review_needed
      else AlignFlag.auto := rfl

/-- C4 (aligner speaker assignment): `run_alignment` yields one record per
recognized segment; for each segment the accumulated score of every
speaker equals the sum of `max 0 (min end_w end_d - max start_w start_d)`
over that speaker's diarization turns; when no turn has strictly positive
overlap the record gets speaker `"Unknown"` and flag `review_needed`;
when some turn overlaps, the flag is `auto` and the assigned speaker's
accumulated overlap is maximal among all speakers; and for the segment
`[2,4]` against turns `A=[0,3]` then `B=[3,5]` the tie breaks to the
earlier-inserted `A`. -/
theorem aligner_speaker_assignment (wsegs : List WSeg) (dsegs : List DSeg)
    (offset : ℚ) (hno : ∀ d ∈ dsegs, d.speaker ≠ "Unknown") :
    (run_alignment wsegs dsegs offset).length = wsegs.length ∧
    (∀ (j : ℕ) (hj : j < wsegs.length)
        (hj' : j < (run_alignment wsegs dsegs offset).length),
      (∀ s, (((speakerScores (wsegs.get ⟨j, hj⟩) dsegs).lookup s).getD 0) =
          sumMax0 (wsegs.get ⟨j, hj⟩) dsegs s) ∧
      ((∀ d ∈ dsegs, min (wsegs.get ⟨j, hj⟩).stop d.stop ≤
            max (wsegs.get ⟨j, hj⟩).start d.start) →
        ((run_alignment wsegs dsegs offset).get ⟨j, hj'⟩).speaker = "Unknown" ∧
        ((run_alignment wsegs dsegs offset).get ⟨j, hj'⟩).flag =
          AlignFlag.review_needed) ∧
      ((∃ d ∈ dsegs, max (wsegs.get ⟨j, hj⟩).start d.start <
            min (wsegs.get ⟨j, hj⟩).stop d.stop) →
        ((run_alignment wsegs dsegs offset).get ⟨j, hj'⟩).flag = AlignFlag.auto ∧
        ∀ s, sumMax0 (wsegs.get ⟨j, hj⟩) dsegs s ≤
          sumMax0 (wsegs.get ⟨j, hj⟩) dsegs
            ((run_alignment wsegs dsegs offset).get ⟨j, hj'⟩).speaker)) ∧
    (run_alignment [{ start := 2, stop := 4, text := "t" }]
        [{ start := 0, stop := 3, speaker := "A" },
         { start := 3, stop := 5, speaker := "B" }] 0).map AlignedSeg.speaker
      = ["A"] := by
  refine ⟨?_, ?_, ?_⟩
  · exact alignGo_length offset dsegs wsegs 0
  · intro j hj hj'
    set w := wsegs.get ⟨j, hj⟩ with hw
    have hget : (run_alignment wsegs dsegs offset).get ⟨j, hj'⟩ =
        alignOne offset (0 + j) w dsegs :=
      alignGo_get offset dsegs wsegs 0 j hj hj'
    refine ⟨fun s => speakerScores_lookup w dsegs s, ?_, ?_⟩
    · intro hall
      have hnil := speakerScores_eq_nil w dsegs hall
      rw [hget, alignOne_speaker, alignOne_flag, hnil]
      exact ⟨rfl, by simp [bestSpeaker]⟩
    · intro hpos
      have hne := speakerScores_ne_nil w dsegs hpos
      obtain ⟨p, rest, hcons⟩ : ∃ p rest, speakerScores w dsegs = p :: rest := by
        cases hsc : speakerScores w dsegs with
        | nil => exact absurd hsc hne
        | cons p rest => exact ⟨p, rest, rfl⟩
      obtain ⟨pr, hprmem, hbesteq, hmax⟩ := bestSpeaker_spec p rest
      rw [← hcons] at hprmem hmax
      have hbest : bestSpeaker (speakerScores w dsegs) = pr.1 := by
        rw [hcons]; exact hbesteq
      obtain ⟨hprpos, d, hd, hds⟩ := speakerScores_inv w dsegs pr hprmem
      have hprne : pr.1 ≠ "Unknown" := by rw [← hds]; exact hno d hd
      have hlookup_pr : List.lookup pr.1 (speakerScores w dsegs) = some pr.2 :=
        lookup_eq_of_mem_nodup _ (speakerScores_keys_nodup w dsegs) pr hprmem
      have hsum_pr : sumMax0 w dsegs pr.1 = pr.2 := by
        rw [← speakerScores_lookup w dsegs pr.1, hlookup_pr]; rfl
      constructor
      · rw [hget, alignOne_flag, hbest, if_neg hprne]
      · intro s
        rw [hget, alignOne_speaker, hbest, hsum_pr,
          ← speakerScores_lookup w dsegs s]
        cases hls : List.lookup s (speakerScores w dsegs) with
        | none => simpa using hprpos.le
        | some v =>
          have hmem := mem_of_lookup_eq_some _ s v hls
          simpa using hmax (s, v) hmem
  · have hBA : ("B" == "A") = false := by decide
    norm_num [run_alignment, alignGo, alignOne, bestSpeaker, speakerScores,
      addScore, List.lookup, List.foldl_cons, List.foldl_nil, max_def, min_def,
      hBA]

/-- Closed instance of C4: at `wC4 = [2,4]` and `dC4 = A:[0,3], B:[3,5]`
(no turn labelled Unknown), the aligner output has one record per input
segment. -/
theorem aligner_speaker_assignment_witness :
    (∀ d ∈ dC4, d.speaker ≠ "Unknown") ∧
      (run_alignment [wC4] dC4 0).length = [wC4].length :=
  ⟨by decide, (aligner_speaker_assignment [wC4] dC4 0 (by decide)).1⟩

theorem get_of_getElem {α : Type} (l : List α) (j : ℕ) (h : j < l.length) (v : α)
    (hv : l[j]? = some v) : l.get ⟨j, h⟩ = v := by
  rw [List.get_eq_getElem]
  exact Option.some_injective _ ((List.getElem?_eq_getElem h).symm.trans hv)

theorem pickClosest_mem (t c : ℚ) (cs : List ℚ) : pickClosest t c cs ∈ c :: cs := by
  unfold pickClosest
  induction cs generalizing c with
  | nil => exact List.mem_singleton_self c
  | cons m ms ih =>
    simp only [List.foldl_cons]
    rcases List.mem_cons.mp (ih (if |m - t| < |c - t| then m else c)) with h1 | h1
    · rw [h1]
      by_cases hc : |m - t| < |c - t|
      · rw [if_pos hc]
        exact List.mem_cons_of_mem _ (List.mem_cons_self _ _)
      · rw [if_neg hc]
        exact List.mem_cons_self _ _
    · exact List.mem_cons_of_mem _ (List.mem_cons_of_mem _ h1)

theorem cutPoint_bounds (D : ℚ) (N : ℕ) (sil : ℕ → List (ℚ × ℚ)) (off : ℕ → ℚ)
    (i : ℕ) (hoff : 0 ≤ off i ∧ off i ≤ winLen D N i)
    (hsil : ∀ pr ∈ sil i, 0 ≤ (pr.1 + pr.2) / 2 ∧ (pr.1 + pr.2) / 2 ≤ winLen D N i) :
    max 0 ((i : ℚ) * D / (N : ℚ) - 30000) ≤ cutPoint D N sil off i ∧
      cutPoint D N sil off i ≤ min D ((i : ℚ) * D / (N : ℚ) + 30000) := by
  have hwin : max 0 ((i : ℚ) * D / (N : ℚ) - 30000) + winLen D N i =
      min D ((i : ℚ) * D / (N : ℚ) + 30000) := by
    unfold winLen
    ring
  simp only [cutPoint]
  cases hs : sil i with
  | nil =>
    dsimp only
    constructor
    · linarith [hoff.1]
    · linarith [hoff.2]
  | cons p ps =>
    dsimp only
    have hmem := pickClosest_mem ((i : ℚ) * D / (N : ℚ))
      (max 0 ((i : ℚ) * D / (N : ℚ) - 30000) + (p.1 + p.2) / 2)
      (ps.map (fun q => max 0 ((i : ℚ) * D / (N : ℚ) - 30000) + (q.1 + q.2) / 2))
    rcases List.mem_cons.mp hmem with h1 | h1
    · rw [h1]
      have hb := hsil p (by rw [hs]; exact List.mem_cons_self _ _)
      constructor
      · linarith [hb.1]
      · linarith [hb.2]
    · obtain ⟨q, hq, hfq⟩ := List.mem_map.mp h1
      rw [← hfq]
      have hb := hsil q (by rw [hs]; exact List.mem_cons_of_mem _ hq)
      constructor
      · linarith [hb.1]
      · linarith [hb.2]

theorem splitPoints_length (D : ℚ) (N : ℕ) (sil : ℕ → List (ℚ × ℚ))
    (off : ℕ → ℚ) (hN : 1 ≤ N) :
    (splitPoints D N sil off).length = N + 1 := by
  unfold splitPoints
  simp only [List.length_cons, List.length_append, List.length_map,
    List.length_range, List.length_singleton, List.length_nil]
  omega

theorem splitPoints_getElem_zero (D : ℚ) (N : ℕ) (sil : ℕ → List (ℚ × ℚ))
    (off : ℕ → ℚ) : (splitPoints D N sil off)[0]? = some 0 := by
  unfold splitPoints
  simp

theorem splitPoints_getElem_mid (D : ℚ) (N : ℕ) (sil : ℕ → List (ℚ × ℚ))
    (off : ℕ → ℚ) (k : ℕ) (hk : k < N - 1) :
    (splitPoints D N sil off)[k + 1]? = some (cutPoint D N sil off (k + 1)) := by
  unfold splitPoints
  rw [List.getElem?_cons_succ, List.getElem?_append,
    if_pos (by simpa using hk), List.getElem?_map]
  simp [List.getElem?_range, hk]

theorem splitPoints_getElem_last (D : ℚ) (N : ℕ) (sil : ℕ → List (ℚ × ℚ))
    (off : ℕ → ℚ) (hN : 1 ≤ N) :
    (splitPoints D N sil off)[N]? = some D := by
  unfold splitPoints
  obtain ⟨M, rfl⟩ : ∃ M, N = M + 1 := ⟨N - 1, by omega⟩
  rw [List.getElem?_cons_succ, List.getElem?_append, if_neg (by simp)]
  simp

theorem chunksFromPoints_length (ps : List ℚ) :
    ∀ i : ℕ, (chunksFromPoints i ps).length = ps.length - 1 := by
  induction ps with
  | nil => intro i; rfl
  | cons p rest ih =>
    intro i
    cases rest with
    | nil => rfl
    | cons q rest' =>
      simp only [chunksFromPoints, List.length_cons]
      rw [ih (i + 1)]
      simp only [List.length_cons]
      omega

theorem chunksFromPoints_getElem (ps : List ℚ) :
    ∀ (i j : ℕ), (chunksFromPoints i ps)[j]? =
      (ps[j]?).bind (fun a => (ps[j + 1]?).map (fun b =>
        { chunk_id := i + j + 1, start_time_ms := a, end_time_ms := b,
          duration_ms := b - a })) := by
  induction ps with
  | nil => intro i j; simp [chunksFromPoints]
  | cons p rest ih =>
    intro i j
    cases rest with
    | nil =>
      cases j with
      | zero => simp [chunksFromPoints]
      | succ j' => simp [chunksFromPoints]
    | cons q rest' =>
      cases j with
      | zero => simp [chunksFromPoints]
      | succ j' =>
        simp only [chunksFromPoints, List.getElem?_cons_succ, ih (i + 1) j',
          show i + 1 + j' + 1 = i + (j' + 1) + 1 from by omega]

theorem chunksFromPoints_sum (ps : List ℚ) :
    ∀ (i : ℕ) (p : ℚ),
      ((chunksFromPoints i (p :: ps)).map ChunkMeta.duration_ms).sum =
        (p :: ps).getLastD 0 - p := by
  induction ps with
  | nil => intro i p; simp [chunksFromPoints]
  | cons q rest ih =>
    intro i p
    simp only [chunksFromPoints, List.map_cons, List.sum_cons]
    rw [ih (i + 1) q]
    simp only [List.getLastD_cons]
    ring

theorem split_audio_get (D : ℚ) (N : ℕ) (sil : ℕ → List (ℚ × ℚ)) (off : ℕ → ℚ)
    (j : ℕ) (hj : j < (split_audio D N sil off).length)
    (hj0 : j < (splitPoints D N sil off).length)
    (hj1 : j + 1 < (splitPoints D N sil off).length) :
    (split_audio D N sil off).get ⟨j, hj⟩ =
      { chunk_id := j + 1,
        start_time_ms := (splitPoints D N sil off).get ⟨j, hj0⟩,
        end_time_ms := (splitPoints D N sil off).get ⟨j + 1, hj1⟩,
        duration_ms := (splitPoints D N sil off).get ⟨j + 1, hj1⟩ -
          (splitPoints D N sil off).get ⟨j, hj0⟩ } := by
  have h := chunksFromPoints_getElem (splitPoints D N sil off) 0 j
  rw [List.getElem?_eq_getElem hj0, List.getElem?_eq_getElem hj1] at h
  simp only [Option.some_bind, Option.map_some'] at h
  apply get_of_getElem
  show (chunksFromPoints 0 (splitPoints D N sil off))[j]? = _
  rw [h]
  rw [show (0 : ℕ) + j + 1 = j + 1 from by omega]
  rfl

theorem splitPoints_get_zero (D : ℚ) (N : ℕ) (sil : ℕ → List (ℚ × ℚ))
    (off : ℕ → ℚ) (hk : 0 < (splitPoints D N sil off).length) :
    (splitPoints D N sil off).get ⟨0, hk⟩ = 0 :=
  get_of_getElem _ 0 hk 0 (splitPoints_getElem_zero D N sil off)

theorem splitPoints_get_mid (D : ℚ) (N : ℕ) (sil : ℕ → List (ℚ × ℚ))
    (off : ℕ → ℚ) (k : ℕ) (h1k : 1 ≤ k) (h2k : k ≤ N - 1)
    (hk : k < (splitPoints D N sil off).length) :
    (splitPoints D N sil off).get ⟨k, hk⟩ = cutPoint D N sil off k := by
  apply get_of_getElem
  obtain ⟨k', rfl⟩ : ∃ k', k = k' + 1 := ⟨k - 1, by omega⟩
  exact splitPoints_getElem_mid D N sil off k' (by omega)

theorem splitPoints_get_last (D : ℚ) (N : ℕ) (sil : ℕ → List (ℚ × ℚ))
    (off : ℕ → ℚ) (hN : 1 ≤ N) (hk : N < (splitPoints D N sil off).length) :
    (splitPoints D N sil off).get ⟨N, hk⟩ = D :=
  get_of_getElem _ N hk D (splitPoints_getElem_last D N sil off hN)

theorem splitPoints_mono (D : ℚ) (N : ℕ) (sil : ℕ → List (ℚ × ℚ))
    (off : ℕ → ℚ) (hN : 1 ≤ N) (hD : 0 ≤ D)
    (hoff : ∀ i, 1 ≤ i → i ≤ N - 1 → 0 ≤ off i ∧ off i ≤ winLen D N i)
    (hsil : ∀ i, 1 ≤ i → i ≤ N - 1 → ∀ pr ∈ sil i,
        0 ≤ (pr.1 + pr.2) / 2 ∧ (pr.1 + pr.2) / 2 ≤ winLen D N i)
    (hsep : 60000 * (N : ℚ) ≤ D) (j : ℕ) (hjN : j + 1 ≤ N)
    (h0 : j < (splitPoints D N sil off).length)
    (h1 : j + 1 < (splitPoints D N sil off).length) :
    (splitPoints D N sil off).get ⟨j, h0⟩ ≤
      (splitPoints D N sil off).get ⟨j + 1, h1⟩ := by
  have hNq : (0 : ℚ) < (N : ℚ) := by
    have : (1 : ℚ) ≤ (N : ℚ) := by exact_mod_cast hN
    linarith
  have hdiv : (60000 : ℚ) ≤ D / (N : ℚ) := by
    rw [le_div_iff₀ hNq]
    linarith [hsep]
  by_cases hj0 : j = 0
  · subst hj0
    rw [splitPoints_get_zero]
    show (0 : ℚ) ≤ (splitPoints D N sil off).get ⟨1, h1⟩
    by_cases h1N : 1 = N
    · subst h1N
      rw [splitPoints_get_last D 1 sil off hN h1]
      exact hD
    · rw [splitPoints_get_mid D N sil off 1 (le_refl 1) (by omega) h1]
      have hb := cutPoint_bounds D N sil off 1
        (hoff 1 (le_refl 1) (by omega)) (hsil 1 (le_refl 1) (by omega))
      exact le_trans (le_max_left 0 _) hb.1
  · have hj1 : 1 ≤ j := by omega
    have hbj := cutPoint_bounds D N sil off j
      (hoff j hj1 (by omega)) (hsil j hj1 (by omega))
    rw [splitPoints_get_mid D N sil off j hj1 (by omega) h0]
    by_cases hjN' : j + 1 = N
    · subst hjN'
      rw [splitPoints_get_last D (j + 1) sil off hN h1]
      calc cutPoint D (j + 1) sil off j
          ≤ min D ((j : ℚ) * D / ((j + 1 : ℕ) : ℚ) + 30000) := hbj.2
        _ ≤ D := min_le_left _ _
    · have hbj1 := cutPoint_bounds D N sil off (j + 1)
        (hoff (j + 1) (by omega) (by omega)) (hsil (j + 1) (by omega) (by omega))
      rw [splitPoints_get_mid D N sil off (j + 1) (by omega) (by omega) h1]
      have hcast : ((j + 1 : ℕ) : ℚ) = (j : ℚ) + 1 := by push_cast; ring
      have hsteps : (j : ℚ) * D / (N : ℚ) + 30000 ≤
          ((j + 1 : ℕ) : ℚ) * D / (N : ℚ) - 30000 := by
        rw [hcast]
        have hexp : ((j : ℚ) + 1) * D / (N : ℚ) =
            (j : ℚ) * D / (N : ℚ) + D / (N : ℚ) := by
          field_simp
          ring
        rw [hexp]
        linarith [hdiv]
      calc cutPoint D N sil off j
          ≤ min D ((j : ℚ) * D / (N : ℚ) + 30000) := hbj.2
        _ ≤ (j : ℚ) * D / (N : ℚ) + 30000 := min_le_right _ _
        _ ≤ ((j + 1 : ℕ) : ℚ) * D / (N : ℚ) - 30000 := hsteps
        _ ≤ max 0 (((j + 1 : ℕ) : ℚ) * D / (N : ℚ) - 30000) := le_max_right _ _
        _ ≤ cutPoint D N sil off (j + 1) := hbj1.1

/-- C8 (split coverage): for a decodable audio of duration `D ≥ 0` and a
chunk count `N ≥ 1`, with the silence / energy analyses returning
window-relative positions inside each ±30 s search window, `split_audio`
returns exactly `N` chunks; each chunk's end time equals the next
chunk's start time; the first chunk starts at 0 and the last ends at
`D`; every split point lies in `[0, D]`; the chunk durations sum to
`D`; and when consecutive targets are at least 60 s apart
(`60000·N ≤ D`, so the search windows are disjoint) every chunk
duration is nonnegative, making the spans non-overlapping. -/
theorem split_coverage (D : ℚ) (N : ℕ) (sil : ℕ → List (ℚ × ℚ)) (off : ℕ → ℚ)
    (hN : 1 ≤ N) (hD : 0 ≤ D)
    (hoff : ∀ i, 1 ≤ i → i ≤ N - 1 → 0 ≤ off i ∧ off i ≤ winLen D N i)
    (hsil : ∀ i, 1 ≤ i → i ≤ N - 1 → ∀ pr ∈ sil i,
        0 ≤ (pr.1 + pr.2) / 2 ∧ (pr.1 + pr.2) / 2 ≤ winLen D N i) :
    (split_audio D N sil off).length = N ∧
    (∀ (j : ℕ) (hj1 : j + 1 < (split_audio D N sil off).length),
      ((split_audio D N sil off).get ⟨j, Nat.lt_of_succ_lt hj1⟩).end_time_ms =
        ((split_audio D N sil off).get ⟨j + 1, hj1⟩).start_time_ms) ∧
    (split_audio D N sil off).head?.map ChunkMeta.start_time_ms = some 0 ∧
    (split_audio D N sil off).getLast?.map ChunkMeta.end_time_ms = some D ∧
    (∀ p ∈ splitPoints D N sil off, 0 ≤ p ∧ p ≤ D) ∧
    ((split_audio D N sil off).map ChunkMeta.duration_ms).sum = D ∧
    (60000 * (N : ℚ) ≤ D → ∀ c ∈ split_audio D N sil off, 0 ≤ c.duration_ms) := by
  have hlenp := splitPoints_length D N sil off hN
  have hlenc : (split_audio D N sil off).length = N := by
    unfold split_audio
    rw [chunksFromPoints_length, hlenp]
    omega
  refine ⟨hlenc, ?_, ?_, ?_, ?_, ?_, ?_⟩
  · intro j hj1
    have hp0 : j < (splitPoints D N sil off).length := by
      rw [hlenp]; rw [hlenc] at hj1; omega
    have hp1 : j + 1 < (splitPoints D N sil off).length := by
      rw [hlenp]; rw [hlenc] at hj1; omega
    have hp2 : j + 1 + 1 < (splitPoints D N sil off).length := by
      rw [hlenp]; rw [hlenc] at hj1; omega
    rw [split_audio_get D N sil off j (Nat.lt_of_succ_lt hj1) hp0 hp1,
      split_audio_get D N sil off (j + 1) hj1 hp1 hp2]
  · rw [List.head?_eq_getElem?]
    show (chunksFromPoints 0
      (splitPoints D N sil off))[0]?.map ChunkMeta.start_time_ms = some 0
    rw [chunksFromPoints_getElem]
    have h1lt : 1 < (splitPoints D N sil off).length := by rw [hlenp]; omega
    rw [splitPoints_getElem_zero, show (0 : ℕ) + 1 = 1 from rfl,
      List.getElem?_eq_getElem h1lt]
    rfl
  · rw [List.getLast?_eq_getElem?, hlenc]
    show (chunksFromPoints 0
      (splitPoints D N sil off))[N - 1]?.map ChunkMeta.end_time_ms = some D
    rw [chunksFromPoints_getElem]
    have hm1 : N - 1 < (splitPoints D N sil off).length := by rw [hlenp]; omega
    rw [show N - 1 + 1 = N from by omega, splitPoints_getElem_last D N sil off hN,
      List.getElem?_eq_getElem hm1]
    rfl
  · intro p hp
    unfold splitPoints at hp
    rcases List.mem_cons.mp hp with h | h
    · rw [h]
      exact ⟨le_refl 0, hD⟩
    · rcases List.mem_append.mp h with h | h
      · obtain ⟨k, hk, hfk⟩ := List.mem_map.mp h
        rw [List.mem_range] at hk
        have hb := cutPoint_bounds D N sil off (k + 1)
          (hoff (k + 1) (by omega) (by omega))
          (hsil (k + 1) (by omega) (by omega))
        rw [← hfk]
        exact ⟨le_trans (le_max_left 0 _) hb.1, le_trans hb.2 (min_le_left _ _)⟩
      · rw [List.mem_singleton.mp h]
        exact ⟨hD, le_refl D⟩
  · have hlast : (splitPoints D N sil off).getLast? = some D := by
      rw [List.getLast?_eq_getElem?, hlenp, show N + 1 - 1 = N from by omega]
      exact splitPoints_getElem_last D N sil off hN
    have hlastD : (splitPoints D N sil off).getLastD 0 = D := by
      rw [List.getLastD_eq_getLast?, hlast]
      rfl
    unfold split_audio splitPoints
    rw [chunksFromPoints_sum]
    unfold splitPoints at hlastD
    rw [hlastD]
    ring
  · intro hsep c hc
    obtain ⟨⟨j, hj⟩, hcj⟩ := List.mem_iff_get.mp hc
    have hjN : j + 1 ≤ N := by rw [hlenc] at hj; omega
    have hp0 : j < (splitPoints D N sil off).length := by rw [hlenp]; omega
    have hp1 : j + 1 < (splitPoints D N sil off).length := by rw [hlenp]; omega
    rw [← hcj, split_audio_get D N sil off j hj hp0 hp1]
    show (0 : ℚ) ≤ (splitPoints D N sil off).get ⟨j + 1, hp1⟩ -
      (splitPoints D N sil off).get ⟨j, hp0⟩
    have hm := splitPoints_mono D N sil off hN hD hoff hsil hsep j hjN hp0 hp1
    linarith

/-- Closed instance of C8: a 300-second audio split into 4 chunks, with
no silence detected and a 5-second in-window energy offset, satisfies
the analysis contract and yields exactly 4 chunks. -/
theorem split_coverage_witness :
    ((1 : ℕ) ≤ 4 ∧ (0 : ℚ) ≤ 300000) ∧
      (split_audio 300000 4 silC8 offC8).length = 4 := by
  refine ⟨⟨by decide, by norm_num⟩, ?_⟩
  exact (split_coverage 300000 4 silC8 offC8 (by decide) (by norm_num)
    (by
      intro i h1 h2
      interval_cases i <;>
        norm_num [offC8, winLen, max_def, min_def])
    (by
      intro i h1 h2 pr hpr
      simp [silC8] at hpr)).1

theorem step2Go_no_calls (store : CaseStore) (wOr : ℕ → List WSeg)
    (dOr : ℕ → List DSeg) (cs : List ChunkMeta) :
    ∀ i : ℕ, (∀ k, k < cs.length → (store.alignedJ (i + k)).isSome) →
      (step2Go store wOr dOr cs i).2.1 = 0 ∧
        (step2Go store wOr dOr cs i).2.2 = 0 := by
  induction cs with
  | nil => intro i _; exact ⟨rfl, rfl⟩
  | cons c rest ih =>
    intro i h
    have h0 : (store.alignedJ (i + 0)).isSome := h 0 (by simp)
    rw [Nat.add_zero] at h0
    obtain ⟨a, ha⟩ := Option.isSome_iff_exists.mp h0
    have hrest := ih (i + 1) (fun k hk => by
      have hx := h (k + 1) (by simpa using hk)
      rwa [show i + (k + 1) = i + 1 + k from by omega] at hx)
    have hchunk : step2Chunk store wOr dOr i (c.start_time_ms / 1000) =
        (a, 0, 0) := by
      unfold step2Chunk
      rw [ha]
    simp only [step2Go, hchunk]
    exact ⟨by simp [hrest.1], by simp [hrest.2]⟩

theorem attemptsUsed_pos {α : Type} (f : ℕ → Option α) : 1 ≤ attemptsUsed f := by
  unfold attemptsUsed
  split
  · omega
  · split <;> omega

theorem stitchCallCount_pos (sAtt : List Seg → ℕ → Option DatasetEntry)
    (raw : List Seg) (hne : raw ≠ []) : 1 ≤ stitchCallCount sAtt raw := by
  unfold stitchCallCount
  obtain ⟨b, bs, hb⟩ : ∃ b bs, chunksOf5 raw = b :: bs := by
    cases hc : chunksOf5 raw with
    | nil => exact absurd (by rw [← chunksOf5_flatten raw, hc]; rfl) hne
    | cons b bs => exact ⟨b, bs, rfl⟩
  rw [hb]
  simp only [List.map_cons, List.sum_cons]
  exact le_trans (attemptsUsed_pos (sAtt b)) (Nat.le_add_right _ _)

/-- C7 counterexample: on a completed one-chunk case directory (chunk
file and aligned artifact present), two runs of the orchestrator at
different wall-clock instants produce different final transcripts
(`processed_at` is restamped), and the first run already issues 6
completion-service requests (3 stitching retries + 3 flagging retries
for the single window) even though nothing changed — the re-run is
neither byte-identical nor free of redundant external calls. -/
theorem idempotent_resume_cex :
    run_complete_pipeline csC7 [] (fun _ => []) (fun _ => [])
        (fun _ _ => none) (fun _ _ => none) "case" "v" 0 ≠
      run_complete_pipeline csC7 [] (fun _ => []) (fun _ => [])
        (fun _ _ => none) (fun _ _ => none) "case" "v" 1 ∧
    (run_complete_pipeline csC7 [] (fun _ => []) (fun _ => [])
        (fun _ _ => none) (fun _ _ => none) "case" "v" 0).2.completion = 6 ∧
    (run_complete_pipeline csC7 [] (fun _ => []) (fun _ => [])
        (fun _ _ => none) (fun _ _ => none) "case" "v" 0).2.whisper = 0 ∧
    (run_complete_pipeline csC7 [] (fun _ => []) (fun _ => [])
        (fun _ _ => none) (fun _ _ => none) "case" "v" 0).2.diar = 0 := by
  decide

/-- C7 amended: resuming a completed case skips recognition and
diarization entirely (zero whisper and zero diarization calls when
every chunk's aligned artifact exists), but stitching and anomaly
flagging have no checkpoint: whenever the merged segment list is
nonempty at least one completion-service request is issued again, and
the output is stamped `processed_at = now`, so a second run is not
byte-identical. -/
theorem idempotent_resume_amended (store : CaseStore)
    (splitResult : List ChunkMeta) (wOr : ℕ → List WSeg)
    (dOr : ℕ → List DSeg) (sAtt : List Seg → ℕ → Option DatasetEntry)
    (fAtt : List FlagRec → ℕ → Option HealthReport)
    (cn vf : String) (now : ℕ)
    (haligned : ∀ k, k < (if store.chunks = [] then splitResult
        else store.chunks).length → (store.alignedJ k).isSome) :
    (run_complete_pipeline store splitResult wOr dOr sAtt fAtt
        cn vf now).2.whisper = 0 ∧
    (run_complete_pipeline store splitResult wOr dOr sAtt fAtt
        cn vf now).2.diar = 0 ∧
    (run_complete_pipeline store splitResult wOr dOr sAtt fAtt
        cn vf now).1.processed_at = now ∧
    ((step2Go store wOr dOr (if store.chunks = [] then splitResult
        else store.chunks) 0).1.flatten ≠ [] →
      1 ≤ (run_complete_pipeline store splitResult wOr dOr sAtt fAtt
        cn vf now).2.completion) := by
  have hcalls := step2Go_no_calls store wOr dOr
    (if store.chunks = [] then splitResult else store.chunks) 0
    (fun k hk => by
      have := haligned k hk
      rwa [show (0 : ℕ) + k = k from Nat.zero_add k])
  refine ⟨hcalls.1, hcalls.2, rfl, ?_⟩
  intro hne
  have hmne : (((step2Go store wOr dOr (if store.chunks = [] then splitResult
      else store.chunks) 0).1.flatten).map toStitchSeg) ≠ [] := by
    intro hc
    exact hne (List.map_eq_nil_iff.mp hc)
  exact le_trans (stitchCallCount_pos sAtt _ hmne) (Nat.le_add_right _ _)

/-- Closed instance of the amended C7: the completed one-chunk case has
all aligned artifacts, and a resume run performs zero whisper calls. -/
theorem idempotent_resume_amended_witness :
    (∀ k, k < (if csC7.chunks = [] then ([] : List ChunkMeta)
        else csC7.chunks).length → (csC7.alignedJ k).isSome) ∧
      (run_complete_pipeline csC7 [] (fun _ => []) (fun _ => [])
        (fun _ _ => none) (fun _ _ => none) "case" "v" 5).2.whisper = 0 :=
  ⟨by decide, (idempotent_resume_amended csC7 [] (fun _ => []) (fun _ => [])
      (fun _ _ => none) (fun _ _ => none) "case" "v" 5 (by decide)).1⟩

/-- C9 counterexample: a run whose splitting phase raises returns
`None` with the status store untouched; a polling client reads the
`Init` default (`progress 0, "Waiting..."`), not a terminal
`step="Error"` / `progress=-1` record. -/
theorem error_status_persistence_cex :
    pipelineRun (Except.error "split failed") (Except.ok ())
        (Except.ok []) none = (none, none) ∧
    get_status none = { step := "Init", progress := 0, message := "Waiting..." } ∧
    (get_status none).step ≠ "Error" ∧
    (get_status none).progress ≠ -1 := by
  decide

/-- C9 amended: `NeuroAIPipeline.run` never writes a status record on
any path — the blanket exception handler only prints and returns
`None` — so the persisted status (and hence the polled view) after a
failed run is exactly whatever it was before, and a run whose split
phase fails yields no transcript while leaving the store unchanged. -/
theorem error_status_persistence_amended :
    (∀ (split : Except String (List ChunkMeta))
        (process : Except String Unit)
        (stitchFlag : Except String (List FlagRec)) (st : Option StatusRec),
      (pipelineRun split process stitchFlag st).2 = st ∧
      get_status (pipelineRun split process stitchFlag st).2 =
        get_status st) ∧
    (∀ (e : String) (process : Except String Unit)
        (stitchFlag : Except String (List FlagRec)) (st : Option StatusRec),
      pipelineRun (Except.error e) process stitchFlag st = (none, st)) := by
  constructor
  · intro split process stitchFlag st
    have h2 : (pipelineRun split process stitchFlag st).2 = st := by
      unfold pipelineRun
      cases split with
      | error e => rfl
      | ok chunks =>
        dsimp only
        by_cases hc : chunks = []
        · rw [if_pos hc]
        · rw [if_neg hc]
          cases process with
          | error e => rfl
          | ok u =>
            cases stitchFlag with
            | error e => rfl
            | ok l => rfl
    exact ⟨h2, by rw [h2]⟩
  · intro e process stitchFlag st
    rfl

end NeuroAI
